import Mathlib

/-!
Verification of the patient-inquiry automation script (`patient_automation.py`).

The script is sequential I/O glue: read a spreadsheet, normalize column
names, filter rows not yet marked processed, and for each such row produce a
JSON summary, send best-effort notifications, mark the row processed and
append an audit record.  We embed the decision-making core shallowly:

* Python strings are Lean `String` (code-point lists); `str.strip`,
  `str.lower`, slicing and `replace` are modelled char-wise on `s.data`
  (ASCII whitespace and ASCII case, which is what the data in this script
  uses).
* `json.dumps` / `json.loads` are modelled by an executable serializer and
  recursive-descent reader over a JSON value type (`Json`).  JSON numbers
  are modelled as decimal integers; float literals are treated as
  unreadable input, which only narrows the space of modelled backend
  replies.
* The spreadsheet world, the effect outcomes of the external services and
  the emitted log lines / sheet mutations are explicit data, so a whole run
  is a pure function `runScript`.
-/

/-! ## Python string primitives -/

/-- Python `str.strip()` whitespace set (ASCII part). -/
def isPySpace (c : Char) : Bool :=
  c == ' ' || c == '\t' || c == '\n' || c == '\r' || c == '\x0b' || c == '\x0c'

def pyStripList (cs : List Char) : List Char :=
  ((cs.dropWhile isPySpace).reverse.dropWhile isPySpace).reverse

/-- Python `s.strip()`. -/
def pyStrip (s : String) : String := ⟨pyStripList s.data⟩

def pyLowerChar (c : Char) : Char :=
  if 'A' ≤ c ∧ c ≤ 'Z' then Char.ofNat (c.toNat + 32) else c

/-- Python `s.lower()` (ASCII case fold). -/
def pyLower (s : String) : String := ⟨s.data.map pyLowerChar⟩

/-- `c.lower().strip()` as used to key the header lookup. -/
def lowerKey (s : String) : String := pyStrip (pyLower s)

/-- Python `s[:n]` (first `n` code points). -/
def pySlice (n : Nat) (s : String) : String := ⟨s.data.take n⟩

/-- Python `s.replace("\n", " ")`. -/
def pyReplaceNl (s : String) : String :=
  ⟨s.data.map (fun c => if c = '\n' then ' ' else c)⟩

/-- Python `a or b` on strings: `b` when `a` is empty. -/
def pyOrS (a b : String) : String := if a = "" then b else a

/-! ## JSON values -/

/-- JSON values as produced by `json.loads` / consumed by `json.dumps`.
Numbers are restricted to integers. -/
inductive Json where
  | null : Json
  | bool : Bool → Json
  | num : Int → Json
  | str : String → Json
  | arr : List Json → Json
  | obj : List (String × Json) → Json

/-- Python truthiness of a JSON value. -/
def pyTruthy : Json → Bool
  | .null => false
  | .bool b => b
  | .num n => n != 0
  | .str s => s != ""
  | .arr xs => !xs.isEmpty
  | .obj kvs => !kvs.isEmpty

/-- `dict.get` semantics on the association list produced by `json.loads`:
later duplicate keys overwrite earlier ones, so the last binding wins. -/
def objGetLast (kvs : List (String × Json)) (k : String) : Option Json :=
  (kvs.filter (fun p => p.1 == k)).getLast? |>.map Prod.snd

/-! ### Serialization (`json.dumps`, compact default separators,
`ensure_ascii=False`) -/

def digitChar (d : Nat) : Char := Char.ofNat (48 + d)

def hexChar (d : Nat) : Char :=
  if d < 10 then Char.ofNat (48 + d) else Char.ofNat (87 + d)

/-- Decimal digits of `n`, most significant first (fuel-structural so the
kernel can evaluate it). -/
def natCharsAux : Nat → Nat → List Char → List Char
  | 0, _, acc => acc
  | fuel + 1, n, acc =>
    if n < 10 then digitChar n :: acc
    else natCharsAux fuel (n / 10) (digitChar (n % 10) :: acc)

def natChars (n : Nat) : List Char := natCharsAux (n + 1) n []

/-- Decimal rendering of an integer, as `json.dumps` prints it. -/
def intChars (n : Int) : List Char :=
  if n < 0 then '-' :: natChars n.natAbs else natChars n.natAbs

/-- The escape sequence `json.dumps` emits for one character of a string
(`ensure_ascii=False`): short escapes for the usual control characters,
`\u00XX` for the remaining ones below `0x20`, everything else verbatim. -/
def escChar (c : Char) : List Char :=
  if c = '"' then ['\\', '"']
  else if c = '\\' then ['\\', '\\']
  else if c = '\n' then ['\\', 'n']
  else if c = '\r' then ['\\', 'r']
  else if c = '\t' then ['\\', 't']
  else if c = '\x08' then ['\\', 'b']
  else if c = '\x0c' then ['\\', 'f']
  else if c.toNat < 32 then
    ['\\', 'u', '0', '0', hexChar (c.toNat / 16), hexChar (c.toNat % 16)]
  else [c]

def escString (cs : List Char) : List Char := cs.flatMap escChar

/-- `json.dumps` of a string literal. -/
def dumpStrChars (s : String) : List Char := '"' :: escString s.data ++ ['"']

mutual

/-- `json.dumps(v, ensure_ascii=False)` with the default separators
`", "` and `": "`, as a character list. -/
def dumpVal : Json → List Char
  | .null => "null".data
  | .bool true => "true".data
  | .bool false => "false".data
  | .num n => intChars n
  | .str s => dumpStrChars s
  | .arr [] => ['[', ']']
  | .arr (x :: xs) => '[' :: (dumpVal x ++ dumpElemsTail xs) ++ [']']
  | .obj [] => ['\x7b', '\x7d']
  | .obj (kv :: kvs) =>
    '\x7b' :: (dumpStrChars kv.1 ++ ':' :: ' ' :: dumpVal kv.2 ++ dumpMembersTail kvs)
      ++ ['\x7d']

def dumpElemsTail : List Json → List Char
  | [] => []
  | x :: xs => ',' :: ' ' :: dumpVal x ++ dumpElemsTail xs

def dumpMembersTail : List (String × Json) → List Char
  | [] => []
  | kv :: kvs => ',' :: ' ' :: dumpStrChars kv.1 ++ ':' :: ' ' :: dumpVal kv.2
      ++ dumpMembersTail kvs

end

/-- `json.dumps` producing a `String`. -/
def dumps (v : Json) : String := ⟨dumpVal v⟩

/-! ### Reading (`json.loads`)

A recursive-descent reader.  Divergences from CPython kept deliberately
(and only narrowing which backend replies count as well-formed): float
literals, `NaN`/`Infinity` and surrogate `\uXXXX` pairs are rejected, and a
leading-zero integer is accepted. -/

def isJsonWs (c : Char) : Bool := c == ' ' || c == '\t' || c == '\n' || c == '\r'

def skipWs (cs : List Char) : List Char := cs.dropWhile isJsonWs

def hexVal (c : Char) : Option Nat :=
  if '0' ≤ c ∧ c ≤ '9' then some (c.toNat - 48)
  else if 'a' ≤ c ∧ c ≤ 'f' then some (c.toNat - 87)
  else if 'A' ≤ c ∧ c ≤ 'F' then some (c.toNat - 55)
  else none

/-- Body of a string literal, after the opening quote; `acc` holds the
already-read characters in reverse. -/
def parseStrBody : List Char → List Char → Option (List Char × List Char)
  | _, [] => none
  | acc, c :: rest =>
    if c = '"' then some (acc.reverse, rest)
    else if c = '\\' then
      match rest with
      | [] => none
      | e :: rest2 =>
        if e = '"' then parseStrBody ('"' :: acc) rest2
        else if e = '\\' then parseStrBody ('\\' :: acc) rest2
        else if e = '/' then parseStrBody ('/' :: acc) rest2
        else if e = 'b' then parseStrBody ('\x08' :: acc) rest2
        else if e = 'f' then parseStrBody ('\x0c' :: acc) rest2
        else if e = 'n' then parseStrBody ('\n' :: acc) rest2
        else if e = 'r' then parseStrBody ('\r' :: acc) rest2
        else if e = 't' then parseStrBody ('\t' :: acc) rest2
        else if e = 'u' then
          match rest2 with
          | h1 :: h2 :: h3 :: h4 :: rest3 =>
            match hexVal h1, hexVal h2, hexVal h3, hexVal h4 with
            | some a, some b, some x, some d =>
              let code := a * 4096 + b * 256 + x * 16 + d
              if _h : code.isValidChar then parseStrBody (Char.ofNat code :: acc) rest3
              else none
            | _, _, _, _ => none
          | _ => none
        else none
    else if c.toNat < 32 then none
    else parseStrBody (c :: acc) rest

def digitVal (c : Char) : Nat := c.toNat - 48

/-- Consume a run of decimal digits, extending the accumulator. -/
def parseDigitsAux : Nat → List Char → Nat × List Char
  | acc, [] => (acc, [])
  | acc, c :: rest =>
    if c.isDigit then parseDigitsAux (acc * 10 + digitVal c) rest else (acc, c :: rest)

mutual

/-- One JSON value; the `Nat` is fuel bounding the nesting. -/
def parseVal : Nat → List Char → Option (Json × List Char)
  | 0, _ => none
  | fuel + 1, cs =>
    match skipWs cs with
    | [] => none
    | c :: rest =>
      if c = 'n' then
        match rest with
        | 'u' :: 'l' :: 'l' :: r => some (.null, r)
        | _ => none
      else if c = 't' then
        match rest with
        | 'r' :: 'u' :: 'e' :: r => some (.bool true, r)
        | _ => none
      else if c = 'f' then
        match rest with
        | 'a' :: 'l' :: 's' :: 'e' :: r => some (.bool false, r)
        | _ => none
      else if c = '"' then
        match parseStrBody [] rest with
        | some (s, r) => some (.str ⟨s⟩, r)
        | none => none
      else if c = '[' then
        let r2 := skipWs rest
        if r2.head? = some ']' then some (.arr [], r2.tail)
        else
          match parseElems fuel r2 with
          | some (xs, r) => some (.arr xs, r)
          | none => none
      else if c = '\x7b' then
        let r2 := skipWs rest
        if r2.head? = some '\x7d' then some (.obj [], r2.tail)
        else
          match parseMembers fuel r2 with
          | some (kvs, r) => some (.obj kvs, r)
          | none => none
      else if c = '-' then
        match rest with
        | d :: r =>
          if d.isDigit then
            let p := parseDigitsAux (digitVal d) r
            some (.num (-(p.1 : Int)), p.2)
          else none
        | [] => none
      else if c.isDigit then
        let p := parseDigitsAux (digitVal c) rest
        some (.num (p.1 : Int), p.2)
      else none

/-- Elements of a non-empty array, up to and including the closing
bracket. -/
def parseElems : Nat → List Char → Option (List Json × List Char)
  | 0, _ => none
  | fuel + 1, cs =>
    match parseVal fuel cs with
    | none => none
    | some (v, r) =>
      match skipWs r with
      | ']' :: r2 => some ([v], r2)
      | ',' :: r2 =>
        match parseElems fuel r2 with
        | some (xs, r3) => some (v :: xs, r3)
        | none => none
      | _ => none

/-- Members of a non-empty object, up to and including the closing
brace. -/
def parseMembers : Nat → List Char → Option (List (String × Json) × List Char)
  | 0, _ => none
  | fuel + 1, cs =>
    match skipWs cs with
    | '"' :: r =>
      match parseStrBody [] r with
      | none => none
      | some (k, r2) =>
        match skipWs r2 with
        | ':' :: r3 =>
          match parseVal fuel r3 with
          | none => none
          | some (v, r4) =>
            match skipWs r4 with
            | '\x7d' :: r5 => some ([(⟨k⟩, v)], r5)
            | ',' :: r5 =>
              match parseMembers fuel r5 with
              | some (kvs, r6) => some ((⟨k⟩, v) :: kvs, r6)
              | none => none
            | _ => none
        | _ => none
    | _ => none

end

/-- `json.loads` on a character list: one value, then only trailing
whitespace. -/
def loadsChars (cs : List Char) : Option Json :=
  match parseVal (cs.length + 1) cs with
  | some (v, rest) => if (skipWs rest).isEmpty then some v else none
  | none => none

/-- `json.loads`. -/
def loads (s : String) : Option Json := loadsChars s.data

theorem dumps_example : dumps (.obj [("a", .num 17), ("b", .arr [.null, .str "x\ny"])])
    = "\x7b\"a\": 17, \"b\": [null, \"x\\ny\"]\x7d" := rfl

theorem loads_example :
    loads "\x7b\"a\": 17, \"b\": [null, \"x\\ny\", -3]\x7d"
      = some (.obj [("a", .num 17), ("b", .arr [.null, .str "x\ny", .num (-3)])]) := rfl

/-! ### Round trip: `loads (dumps v) = some v` -/

lemma natCharsAux_acc (fuel : Nat) :
    ∀ n acc, natCharsAux fuel n acc = natCharsAux fuel n [] ++ acc := by
  induction fuel with
  | zero => intro n acc; simp [natCharsAux]
  | succ f ih =>
    intro n acc
    by_cases h : n < 10
    · simp [natCharsAux, h]
    · simp only [natCharsAux, if_neg h]
      rw [ih (n / 10) (digitChar (n % 10) :: acc), ih (n / 10) [digitChar (n % 10)]]
      simp

lemma natCharsAux_fuel (n : Nat) :
    ∀ f g acc, n < f → n < g → natCharsAux f n acc = natCharsAux g n acc := by
  induction n using Nat.strong_induction_on with
  | _ n ih =>
    intro f g acc hf hg
    match f, g with
    | f' + 1, g' + 1 =>
      by_cases h : n < 10
      · simp [natCharsAux, h]
      · simp only [natCharsAux, if_neg h]
        have hlt : n / 10 < n := Nat.div_lt_self (by omega) (by omega)
        exact ih (n / 10) hlt f' g' _ (by omega) (by omega)

lemma natChars_lt10 {n : Nat} (h : n < 10) : natChars n = [digitChar n] := by
  simp [natChars, natCharsAux, h]

lemma natCharsAux_succ (f n : Nat) (acc : List Char) :
    natCharsAux (f + 1) n acc
      = if n < 10 then digitChar n :: acc
        else natCharsAux f (n / 10) (digitChar (n % 10) :: acc) := rfl

lemma natChars_ge10 {n : Nat} (h : 10 ≤ n) :
    natChars n = natChars (n / 10) ++ [digitChar (n % 10)] := by
  have hlt : n / 10 < n := Nat.div_lt_self (by omega) (by omega)
  show natCharsAux (n + 1) n [] = _
  rw [natCharsAux_succ, if_neg (by omega : ¬ n < 10), natCharsAux_acc,
    natCharsAux_fuel (n / 10) n (n / 10 + 1) _ (by omega) (by omega)]
  rfl

lemma natChars_digits (n : Nat) : ∀ c ∈ natChars n, ∃ d, d < 10 ∧ c = digitChar d := by
  induction n using Nat.strong_induction_on with
  | _ n ih =>
    by_cases h : n < 10
    · rw [natChars_lt10 h]
      intro c hc
      simp at hc
      exact ⟨n, h, hc⟩
    · rw [natChars_ge10 (by omega)]
      intro c hc
      rcases List.mem_append.1 hc with hc | hc
      · exact ih (n / 10) (Nat.div_lt_self (by omega) (by omega)) c hc
      · simp at hc
        exact ⟨n % 10, Nat.mod_lt _ (by omega), hc⟩

lemma digitChar_isDigit : ∀ d, d < 10 → (digitChar d).isDigit = true := by decide

lemma digitChar_not_ws : ∀ d, d < 10 → isJsonWs (digitChar d) = false := by decide

lemma digitVal_digitChar : ∀ d, d < 10 → digitVal (digitChar d) = d := by decide

/-- The first character of `rest` is not a decimal digit, so a digit run
ending right before `rest` stops there. -/
def headNotDigit (cs : List Char) : Prop :=
  ∀ c, cs.head? = some c → c.isDigit = false

lemma headNotDigit_cons {c : Char} (h : c.isDigit = false) (t : List Char) :
    headNotDigit (c :: t) := by
  intro x hx; simp at hx; subst hx; exact h

lemma headNotDigit_nil : headNotDigit [] := by intro x hx; simp at hx

lemma parseDigitsAux_run (ds : List Char) (hds : ∀ c ∈ ds, c.isDigit = true) :
    ∀ acc rest, headNotDigit rest →
      parseDigitsAux acc (ds ++ rest)
        = (ds.foldl (fun a c => a * 10 + digitVal c) acc, rest) := by
  induction ds with
  | nil =>
    intro acc rest hrest
    match rest with
    | [] => simp [parseDigitsAux]
    | c :: t =>
      have : c.isDigit = false := hrest c rfl
      simp [parseDigitsAux, this]
  | cons c ds ih =>
    intro acc rest hrest
    have hc : c.isDigit = true := hds c (by simp)
    simp only [List.cons_append, parseDigitsAux, hc, if_pos, List.append_eq]
    rw [ih (fun x hx => hds x (by simp [hx])) _ rest hrest]
    simp

lemma natChars_fold (n : Nat) :
    ∀ acc, (natChars n).foldl (fun a c => a * 10 + digitVal c) acc
      = acc * 10 ^ (natChars n).length + n := by
  induction n using Nat.strong_induction_on with
  | _ n ih =>
    intro acc
    by_cases h : n < 10
    · rw [natChars_lt10 h]
      simp [digitVal_digitChar n h]
    · rw [natChars_ge10 (by omega)]
      rw [List.foldl_append, ih (n / 10) (Nat.div_lt_self (by omega) (by omega)) acc]
      simp only [List.foldl_cons, List.foldl_nil, List.length_append, List.length_cons,
        List.length_nil]
      rw [digitVal_digitChar _ (Nat.mod_lt _ (by omega))]
      rw [pow_succ]
      have := Nat.div_add_mod n 10
      ring_nf
      omega

lemma natChars_ne_nil (n : Nat) : natChars n ≠ [] := by
  by_cases h : n < 10
  · rw [natChars_lt10 h]; simp
  · rw [natChars_ge10 (by omega)]; simp

lemma skipWs_cons {c : Char} (h : isJsonWs c = false) (t : List Char) :
    skipWs (c :: t) = c :: t := by
  simp [skipWs, List.dropWhile_cons, h]

lemma skipWs_ws_front (pre : List Char) (hpre : ∀ c ∈ pre, isJsonWs c = true) :
    ∀ cs, skipWs (pre ++ cs) = skipWs cs := by
  induction pre with
  | nil => intro cs; rfl
  | cons c t ih =>
    intro cs
    have hc := hpre c (by simp)
    simp only [List.cons_append, skipWs, List.dropWhile_cons, hc, if_pos]
    simpa [skipWs] using ih (fun x hx => hpre x (by simp [hx])) cs

lemma parseStrBody_cons_eq (acc : List Char) (c : Char) (rest : List Char) :
    parseStrBody acc (c :: rest)
      = if c = '"' then some (acc.reverse, rest)
        else if c = '\\' then
          (match rest with
          | [] => none
          | e :: rest2 =>
            if e = '"' then parseStrBody ('"' :: acc) rest2
            else if e = '\\' then parseStrBody ('\\' :: acc) rest2
            else if e = '/' then parseStrBody ('/' :: acc) rest2
            else if e = 'b' then parseStrBody ('\x08' :: acc) rest2
            else if e = 'f' then parseStrBody ('\x0c' :: acc) rest2
            else if e = 'n' then parseStrBody ('\n' :: acc) rest2
            else if e = 'r' then parseStrBody ('\r' :: acc) rest2
            else if e = 't' then parseStrBody ('\t' :: acc) rest2
            else if e = 'u' then
              match rest2 with
              | h1 :: h2 :: h3 :: h4 :: rest3 =>
                match hexVal h1, hexVal h2, hexVal h3, hexVal h4 with
                | some a, some b, some x, some d =>
                  let code := a * 4096 + b * 256 + x * 16 + d
                  if _h : code.isValidChar then
                    parseStrBody (Char.ofNat code :: acc) rest3
                  else none
                | _, _, _, _ => none
              | _ => none
            else none)
        else if c.toNat < 32 then none
        else parseStrBody (c :: acc) rest := by
  conv_lhs => rw [parseStrBody.eq_def]

lemma hexVal_hexChar : ∀ d, d < 16 → hexVal (hexChar d) = some d := by decide

lemma parseStrBody_esc (c : Char) (acc rest : List Char) :
    parseStrBody acc (escChar c ++ rest) = parseStrBody (c :: acc) rest := by
  by_cases h1 : c = '"'
  · subst h1; simp [escChar, parseStrBody_cons_eq]
  by_cases h2 : c = '\\'
  · subst h2; simp [escChar, parseStrBody_cons_eq]
  by_cases h3 : c = '\n'
  · subst h3; simp [escChar, parseStrBody_cons_eq]
  by_cases h4 : c = '\r'
  · subst h4; simp [escChar, parseStrBody_cons_eq]
  by_cases h5 : c = '\t'
  · subst h5; simp [escChar, parseStrBody_cons_eq]
  by_cases h6 : c = '\x08'
  · subst h6; simp [escChar, parseStrBody_cons_eq]
  by_cases h7 : c = '\x0c'
  · subst h7; simp [escChar, parseStrBody_cons_eq]
  by_cases h8 : c.toNat < 32
  · -- `\u00XX` escape
    have hesc : escChar c
        = ['\\', 'u', '0', '0', hexChar (c.toNat / 16), hexChar (c.toNat % 16)] := by
      simp [escChar, h1, h2, h3, h4, h5, h6, h7, h8]
    rw [hesc]
    have hhi : hexVal (hexChar (c.toNat / 16)) = some (c.toNat / 16) :=
      hexVal_hexChar _ (by omega)
    have hlo : hexVal (hexChar (c.toNat % 16)) = some (c.toNat % 16) :=
      hexVal_hexChar _ (by omega)
    have hv : (c.toNat / 16 * 16 + c.toNat % 16).isValidChar := by
      left
      have : c.toNat / 16 * 16 + c.toNat % 16 = c.toNat := by omega
      omega
    simp only [List.cons_append]
    rw [parseStrBody.eq_def]
    simp only [reduceIte, reduceCtorEq, hhi, hlo, show hexVal '0' = some 0 from rfl]
    norm_num
    rw [if_neg (by decide : ¬ ('\\' = '"')), if_neg (by decide : ¬ ('u' = '"')),
      if_pos hv]
    have hc : c.toNat / 16 * 16 + c.toNat % 16 = c.toNat := by omega
    rw [hc, Char.ofNat_toNat]
    rw [if_neg (by decide : ¬ ('u' = '\\')), if_neg (by decide : ¬ ('u' = '/')),
      if_neg (by decide : ¬ ('u' = 'b')), if_neg (by decide : ¬ ('u' = 'f')),
      if_neg (by decide : ¬ ('u' = 'n')), if_neg (by decide : ¬ ('u' = 'r')),
      if_neg (by decide : ¬ ('u' = 't'))]
  · -- plain character
    have hesc : escChar c = [c] := by
      simp [escChar, h1, h2, h3, h4, h5, h6, h7, h8]
    rw [hesc]
    simp only [List.cons_append, List.nil_append, parseStrBody_cons_eq, if_neg h1, if_neg h2,
      if_neg h8]

lemma parseStrBody_escString (cs : List Char) :
    ∀ acc rest, parseStrBody acc (escString cs ++ '"' :: rest)
      = some (acc.reverse ++ cs, rest) := by
  induction cs with
  | nil =>
    intro acc rest
    simp [escString, parseStrBody_cons_eq]
  | cons c t ih =>
    intro acc rest
    have : escString (c :: t) = escChar c ++ escString t := by
      simp [escString]
    rw [this, List.append_assoc, parseStrBody_esc, ih (c :: acc) rest]
    simp

/-! Sizes of JSON values, used as fuel bounds for the reader. -/

mutual

def jsize : Json → Nat
  | .null => 1
  | .bool _ => 1
  | .num _ => 1
  | .str _ => 1
  | .arr xs => 1 + jsizeL xs
  | .obj kvs => 1 + jsizeM kvs

def jsizeL : List Json → Nat
  | [] => 0
  | x :: xs => 1 + jsize x + jsizeL xs

def jsizeM : List (String × Json) → Nat
  | [] => 0
  | kv :: kvs => 1 + jsize kv.2 + jsizeM kvs

end

lemma jsize_pos (v : Json) : 1 ≤ jsize v := by
  cases v <;> simp [jsize]

lemma digitChar_head_props : ∀ k, k < 10 →
    digitChar k ≠ 'n' ∧ digitChar k ≠ 't' ∧ digitChar k ≠ 'f' ∧ digitChar k ≠ '"' ∧
    digitChar k ≠ '[' ∧ digitChar k ≠ '\x7b' ∧ digitChar k ≠ '-' ∧
    (digitChar k).isDigit = true ∧ isJsonWs (digitChar k) = false ∧ digitChar k ≠ ']' := by
  decide

/-- Unfolding of `parseVal` at positive fuel. -/
lemma parseVal_succ (f : Nat) (cs : List Char) :
    parseVal (f + 1) cs
      = match skipWs cs with
        | [] => none
        | c :: rest =>
          if c = 'n' then
            match rest with
            | 'u' :: 'l' :: 'l' :: r => some (.null, r)
            | _ => none
          else if c = 't' then
            match rest with
            | 'r' :: 'u' :: 'e' :: r => some (.bool true, r)
            | _ => none
          else if c = 'f' then
            match rest with
            | 'a' :: 'l' :: 's' :: 'e' :: r => some (.bool false, r)
            | _ => none
          else if c = '"' then
            match parseStrBody [] rest with
            | some (s, r) => some (.str ⟨s⟩, r)
            | none => none
          else if c = '[' then
            let r2 := skipWs rest
            if r2.head? = some ']' then some (.arr [], r2.tail)
            else
              match parseElems f r2 with
              | some (xs, r) => some (.arr xs, r)
              | none => none
          else if c = '\x7b' then
            let r2 := skipWs rest
            if r2.head? = some '\x7d' then some (.obj [], r2.tail)
            else
              match parseMembers f r2 with
              | some (kvs, r) => some (.obj kvs, r)
              | none => none
          else if c = '-' then
            match rest with
            | d :: r =>
              if d.isDigit then
                let p := parseDigitsAux (digitVal d) r
                some (.num (-(p.1 : Int)), p.2)
              else none
            | [] => none
          else if c.isDigit then
            let p := parseDigitsAux (digitVal c) rest
            some (.num (p.1 : Int), p.2)
          else none := rfl

/-- The branch `parseVal` takes once whitespace is skipped down to a cons
cell with head `c` and tail `t`. -/
def parseValBody (f : Nat) (c : Char) (t : List Char) : Option (Json × List Char) :=
  if c = 'n' then
    match t with
    | 'u' :: 'l' :: 'l' :: r => some (Json.null, r)
    | _ => none
  else if c = 't' then
    match t with
    | 'r' :: 'u' :: 'e' :: r => some (Json.bool true, r)
    | _ => none
  else if c = 'f' then
    match t with
    | 'a' :: 'l' :: 's' :: 'e' :: r => some (Json.bool false, r)
    | _ => none
  else if c = '"' then
    match parseStrBody [] t with
    | some (s, r) => some (Json.str ⟨s⟩, r)
    | none => none
  else if c = '[' then
    let r2 := skipWs t
    if r2.head? = some ']' then some (Json.arr [], r2.tail)
    else
      match parseElems f r2 with
      | some (xs, r) => some (Json.arr xs, r)
      | none => none
  else if c = '\x7b' then
    let r2 := skipWs t
    if r2.head? = some '\x7d' then some (Json.obj [], r2.tail)
    else
      match parseMembers f r2 with
      | some (kvs, r) => some (Json.obj kvs, r)
      | none => none
  else if c = '-' then
    match t with
    | d :: r =>
      if d.isDigit then
        let p := parseDigitsAux (digitVal d) r
        some (Json.num (-(p.1 : Int)), p.2)
      else none
    | [] => none
  else if c.isDigit then
    let p := parseDigitsAux (digitVal c) t
    some (Json.num (p.1 : Int), p.2)
  else none

/-- `parseVal` once the whitespace has been skipped down to a cons cell. -/
lemma parseVal_cons (f : Nat) (cs : List Char) (c : Char) (t : List Char)
    (h : skipWs cs = c :: t) :
    parseVal (f + 1) cs = parseValBody f c t := by
  rw [parseVal_succ]
  simp only [h]
  rfl

lemma parseVal_digitHead (f : Nat) (k : Nat) (hk : k < 10) (t : List Char) :
    parseVal (f + 1) (digitChar k :: t)
      = some (.num ((parseDigitsAux (digitVal (digitChar k)) t).1 : Int),
          (parseDigitsAux (digitVal (digitChar k)) t).2) := by
  obtain ⟨h1, h2, h3, h4, h5, h6, h7, h8, h9, _⟩ := digitChar_head_props k hk
  rw [parseVal_cons f _ _ _ (skipWs_cons h9 t)]
  simp only [parseValBody]
  rw [if_neg h1, if_neg h2, if_neg h3, if_neg h4, if_neg h5, if_neg h6, if_neg h7]
  simp only [h8, if_true]

lemma parseDigits_natChars (m : Nat) (rest : List Char) (hrest : headNotDigit rest)
    (d : Char) (ds : List Char) (h : natChars m = d :: ds) :
    parseDigitsAux (digitVal d) (ds ++ rest) = (m, rest) := by
  have hds : ∀ c ∈ ds, c.isDigit = true := by
    intro c hc
    obtain ⟨k, hk, hck⟩ := natChars_digits m c (by rw [h]; exact List.mem_cons_of_mem d hc)
    rw [hck]
    exact digitChar_isDigit k hk
  rw [parseDigitsAux_run ds hds _ rest hrest]
  have hfold := natChars_fold m 0
  rw [h] at hfold
  simp only [List.foldl_cons, Nat.zero_mul, Nat.zero_add] at hfold
  rw [hfold]

lemma parseVal_num (f : Nat) (n : Int) (rest : List Char) (hrest : headNotDigit rest) :
    parseVal (f + 1) (intChars n ++ rest) = some (.num n, rest) := by
  obtain ⟨d, ds, hnat⟩ := List.exists_cons_of_ne_nil (natChars_ne_nil n.natAbs)
  obtain ⟨k, hk, hdk⟩ := natChars_digits n.natAbs d (by rw [hnat]; simp)
  have hrun := parseDigits_natChars n.natAbs rest hrest d ds hnat
  by_cases hn : n < 0
  · have hint : intChars n = '-' :: natChars n.natAbs := by simp [intChars, hn]
    rw [hint, hnat]
    have hcons : skipWs ('-' :: d :: (ds ++ rest)) = '-' :: (d :: (ds ++ rest)) :=
      skipWs_cons (by decide) _
    rw [show ('-' :: d :: ds) ++ rest = '-' :: d :: (ds ++ rest) by simp]
    rw [parseVal_cons f _ _ _ hcons]
    have hdig : d.isDigit = true := by rw [hdk]; exact digitChar_isDigit k hk
    simp [parseValBody, hdig, hrun]
    simp [abs_of_neg hn]
  · have hint : intChars n = natChars n.natAbs := by simp [intChars, hn]
    rw [hint, hnat, List.cons_append, hdk, parseVal_digitHead f k hk]
    rw [← hdk, hrun]
    have : ((n.natAbs : Nat) : Int) = n := by omega
    simp [this]


lemma parseVal_quote (f : Nat) (cs : List Char) :
    parseVal (f + 1) ('"' :: cs)
      = match parseStrBody [] cs with
        | some (s, r) => some (.str ⟨s⟩, r)
        | none => none := rfl

lemma parseVal_lbrack (f : Nat) (cs : List Char) :
    parseVal (f + 1) ('[' :: cs)
      = (let r2 := skipWs cs
        if r2.head? = some ']' then some (.arr [], r2.tail)
        else
          match parseElems f r2 with
          | some (xs, r) => some (.arr xs, r)
          | none => none) := rfl

lemma parseVal_lbrace (f : Nat) (cs : List Char) :
    parseVal (f + 1) ('\x7b' :: cs)
      = (let r2 := skipWs cs
        if r2.head? = some '\x7d' then some (.obj [], r2.tail)
        else
          match parseMembers f r2 with
          | some (kvs, r) => some (.obj kvs, r)
          | none => none) := rfl

lemma parseElems_succ (f : Nat) (cs : List Char) :
    parseElems (f + 1) cs
      = match parseVal f cs with
        | none => none
        | some (v, r) =>
          match skipWs r with
          | ']' :: r2 => some ([v], r2)
          | ',' :: r2 =>
            match parseElems f r2 with
            | some (xs, r3) => some (v :: xs, r3)
            | none => none
          | _ => none := rfl

lemma parseMembers_succ (f : Nat) (cs : List Char) :
    parseMembers (f + 1) cs
      = match skipWs cs with
        | '"' :: r =>
          match parseStrBody [] r with
          | none => none
          | some (k, r2) =>
            match skipWs r2 with
            | ':' :: r3 =>
              match parseVal f r3 with
              | none => none
              | some (v, r4) =>
                match skipWs r4 with
                | '\x7d' :: r5 => some ([(⟨k⟩, v)], r5)
                | ',' :: r5 =>
                  match parseMembers f r5 with
                  | some (kvs, r6) => some ((⟨k⟩, v) :: kvs, r6)
                  | none => none
                | _ => none
            | _ => none
        | _ => none := rfl

lemma parseVal_ws_front (pre : List Char) (hpre : ∀ c ∈ pre, isJsonWs c = true)
    (f : Nat) (cs : List Char) :
    parseVal f (pre ++ cs) = parseVal f cs := by
  match f with
  | 0 => rfl
  | g + 1 => rw [parseVal_succ, parseVal_succ, skipWs_ws_front pre hpre]

lemma dumpVal_head (v : Json) :
    ∃ c t, dumpVal v = c :: t ∧ isJsonWs c = false ∧ c ≠ ']' := by
  cases v with
  | null => exact ⟨'n', _, rfl, by decide, by decide⟩
  | bool b =>
    cases b
    · exact ⟨'f', _, rfl, by decide, by decide⟩
    · exact ⟨'t', _, rfl, by decide, by decide⟩
  | num n =>
    obtain ⟨d, ds, hnat⟩ := List.exists_cons_of_ne_nil (natChars_ne_nil n.natAbs)
    obtain ⟨k, hk, hdk⟩ := natChars_digits n.natAbs d (by rw [hnat]; simp)
    obtain ⟨-, -, -, -, -, -, -, -, h9, h10⟩ := digitChar_head_props k hk
    by_cases hn : n < 0
    · refine ⟨'-', natChars n.natAbs, ?_, by decide, by decide⟩
      simp [dumpVal, intChars, hn]
    · refine ⟨d, ds, ?_, ?_, ?_⟩
      · simp [dumpVal, intChars, hn, hnat]
      · rw [hdk]; exact h9
      · rw [hdk]; exact h10
  | str s => exact ⟨'"', _, rfl, by decide, by decide⟩
  | arr xs =>
    cases xs
    · exact ⟨'[', _, rfl, by decide, by decide⟩
    · exact ⟨'[', _, rfl, by decide, by decide⟩
  | obj kvs =>
    cases kvs
    · exact ⟨'\x7b', _, rfl, by decide, by decide⟩
    · exact ⟨'\x7b', _, rfl, by decide, by decide⟩

lemma headNotDigit_elemsTail (xs : List Json) (rest : List Char) :
    headNotDigit (dumpElemsTail xs ++ ']' :: rest) := by
  cases xs
  · exact headNotDigit_cons (by decide) rest
  · exact headNotDigit_cons (by decide) _

lemma headNotDigit_membersTail (kvs : List (String × Json)) (rest : List Char) :
    headNotDigit (dumpMembersTail kvs ++ '\x7d' :: rest) := by
  cases kvs
  · exact headNotDigit_cons (by decide) rest
  · exact headNotDigit_cons (by decide) _

lemma parseElems_run (f : Nat) (cs : List Char) (v : Json) (r : List Char)
    (h : parseVal f cs = some (v, r)) :
    parseElems (f + 1) cs
      = match skipWs r with
        | ']' :: r2 => some ([v], r2)
        | ',' :: r2 =>
          match parseElems f r2 with
          | some (xs, r3) => some (v :: xs, r3)
          | none => none
        | _ => none := by
  rw [parseElems_succ]
  simp only [h]

lemma parseMembers_run (f : Nat) (cs r1 : List Char) (k : List Char) (r2 r3 : List Char)
    (v : Json) (r4 : List Char)
    (h1 : skipWs cs = '"' :: r1)
    (h2 : parseStrBody [] r1 = some (k, r2))
    (h3 : skipWs r2 = ':' :: r3)
    (h4 : parseVal f r3 = some (v, r4)) :
    parseMembers (f + 1) cs
      = match skipWs r4 with
        | '\x7d' :: r5 => some ([(⟨k⟩, v)], r5)
        | ',' :: r5 =>
          match parseMembers f r5 with
          | some (kvs, r6) => some ((⟨k⟩, v) :: kvs, r6)
          | none => none
        | _ => none := by
  rw [parseMembers_succ]
  simp only [h1, h2, h3, h4]

theorem roundtrip_bundle : ∀ N : Nat,
    (∀ v : Json, jsize v ≤ N → ∀ fuel, jsize v ≤ fuel → ∀ rest, headNotDigit rest →
      parseVal fuel (dumpVal v ++ rest) = some (v, rest)) ∧
    (∀ (x : Json) (xs : List Json), jsizeL (x :: xs) ≤ N →
      ∀ fuel, jsizeL (x :: xs) ≤ fuel → ∀ pre, (∀ c ∈ pre, isJsonWs c = true) → ∀ rest,
      parseElems fuel (pre ++ (dumpVal x ++ (dumpElemsTail xs ++ ']' :: rest)))
        = some (x :: xs, rest)) ∧
    (∀ (kv : String × Json) (kvs : List (String × Json)), jsizeM (kv :: kvs) ≤ N →
      ∀ fuel, jsizeM (kv :: kvs) ≤ fuel → ∀ pre, (∀ c ∈ pre, isJsonWs c = true) → ∀ rest,
      parseMembers fuel
          (pre ++ (dumpStrChars kv.1 ++ (':' :: ' ' :: (dumpVal kv.2
            ++ (dumpMembersTail kvs ++ '\x7d' :: rest)))))
        = some (kv :: kvs, rest)) := by
  intro N
  induction N using Nat.strong_induction_on with
  | _ N IH =>
    refine ⟨?_, ?_, ?_⟩
    · -- values
      intro v hN fuel hfuel rest hrest
      obtain ⟨f, rfl⟩ : ∃ f, fuel = f + 1 := ⟨fuel - 1, by have := jsize_pos v; omega⟩
      cases v with
      | null => rfl
      | bool b => cases b <;> rfl
      | num n => exact parseVal_num f n rest hrest
      | str s =>
        have heq : dumpVal (.str s) ++ rest = '"' :: (escString s.data ++ '"' :: rest) := by
          simp [dumpVal, dumpStrChars]
        rw [heq, parseVal_quote, parseStrBody_escString]
        rfl
      | arr xs =>
        cases xs with
        | nil =>
          have heq : dumpVal (.arr []) ++ rest = '[' :: (']' :: rest) := rfl
          rw [heq, parseVal_lbrack]
          simp [skipWs_cons (by decide : isJsonWs ']' = false)]
        | cons x xs =>
          have hsz : jsize (Json.arr (x :: xs)) = 1 + jsizeL (x :: xs) := rfl
          have hN2 : N - 1 < N := by
            have := jsize_pos (Json.arr (x :: xs)); omega
          have hL : jsizeL (x :: xs) ≤ N - 1 := by rw [hsz] at hN; omega
          have hLf : jsizeL (x :: xs) ≤ f := by rw [hsz] at hfuel; omega
          have heq : dumpVal (.arr (x :: xs)) ++ rest
              = '[' :: (dumpVal x ++ (dumpElemsTail xs ++ ']' :: rest)) := by
            show ('[' :: (dumpVal x ++ dumpElemsTail xs) ++ [']']) ++ rest = _
            simp
          rw [heq, parseVal_lbrack]
          obtain ⟨c, t, hv, hws, hnb⟩ := dumpVal_head x
          have hskip : skipWs (dumpVal x ++ (dumpElemsTail xs ++ ']' :: rest))
              = dumpVal x ++ (dumpElemsTail xs ++ ']' :: rest) := by
            rw [hv, List.cons_append, skipWs_cons hws]
          simp only [hskip]
          have hhd : (dumpVal x ++ (dumpElemsTail xs ++ ']' :: rest)).head? ≠ some ']' := by
            rw [hv]; simp [hnb]
          rw [if_neg hhd]
          have hE := ((IH (N - 1) hN2).2.1) x xs hL f hLf [] (by simp) rest
          simp only [List.nil_append] at hE
          rw [hE]
      | obj kvs =>
        cases kvs with
        | nil =>
          have heq : dumpVal (.obj []) ++ rest = '\x7b' :: ('\x7d' :: rest) := rfl
          rw [heq, parseVal_lbrace]
          simp [skipWs_cons (by decide : isJsonWs '\x7d' = false)]
        | cons kv kvs =>
          have hsz : jsize (Json.obj (kv :: kvs)) = 1 + jsizeM (kv :: kvs) := rfl
          have hN2 : N - 1 < N := by
            have := jsize_pos (Json.obj (kv :: kvs)); omega
          have hM : jsizeM (kv :: kvs) ≤ N - 1 := by rw [hsz] at hN; omega
          have hMf : jsizeM (kv :: kvs) ≤ f := by rw [hsz] at hfuel; omega
          have heq : dumpVal (.obj (kv :: kvs)) ++ rest
              = '\x7b' :: (dumpStrChars kv.1 ++ (':' :: ' ' :: (dumpVal kv.2
                  ++ (dumpMembersTail kvs ++ '\x7d' :: rest)))) := by
            show ('\x7b' :: (dumpStrChars kv.1 ++ ':' :: ' ' :: dumpVal kv.2
                ++ dumpMembersTail kvs) ++ ['\x7d']) ++ rest = _
            simp
          rw [heq, parseVal_lbrace]
          have hsplit2 : dumpStrChars kv.1 ++ (':' :: ' ' :: (dumpVal kv.2
              ++ (dumpMembersTail kvs ++ '\x7d' :: rest)))
              = '"' :: (escString kv.1.data ++ '"' :: (':' :: ' ' :: (dumpVal kv.2
                  ++ (dumpMembersTail kvs ++ '\x7d' :: rest)))) := by
            simp [dumpStrChars]
          have hskip : skipWs (dumpStrChars kv.1 ++ (':' :: ' ' :: (dumpVal kv.2
              ++ (dumpMembersTail kvs ++ '\x7d' :: rest))))
              = dumpStrChars kv.1 ++ (':' :: ' ' :: (dumpVal kv.2
                  ++ (dumpMembersTail kvs ++ '\x7d' :: rest))) := by
            rw [hsplit2, skipWs_cons (by decide : isJsonWs '"' = false)]
          simp only [hskip]
          have hhd : (dumpStrChars kv.1 ++ (':' :: ' ' :: (dumpVal kv.2
              ++ (dumpMembersTail kvs ++ '\x7d' :: rest)))).head? ≠ some '\x7d' := by
            rw [hsplit2]
            simp
          rw [if_neg hhd]
          have hMem := ((IH (N - 1) hN2).2.2) kv kvs hM f hMf [] (by simp) rest
          simp only [List.nil_append] at hMem
          rw [hMem]
    · -- array elements
      intro x xs hN fuel hfuel pre hpre rest
      have hx1 : 1 ≤ jsize x := jsize_pos x
      have hsz : jsizeL (x :: xs) = 1 + jsize x + jsizeL xs := rfl
      obtain ⟨g, rfl⟩ : ∃ g, fuel = g + 1 := ⟨fuel - 1, by omega⟩
      have hN2 : N - 1 < N := by omega
      have hVx : parseVal g (pre ++ (dumpVal x ++ (dumpElemsTail xs ++ ']' :: rest)))
          = some (x, dumpElemsTail xs ++ ']' :: rest) := by
        rw [parseVal_ws_front pre hpre]
        exact ((IH (N - 1) hN2).1) x (by omega) g (by omega)
          (dumpElemsTail xs ++ ']' :: rest) (headNotDigit_elemsTail xs rest)
      rw [parseElems_run g _ x _ hVx]
      cases xs with
      | nil =>
        rw [show dumpElemsTail [] ++ ']' :: rest = ']' :: rest from rfl]
        simp only [skipWs_cons (by decide : isJsonWs ']' = false)]
      | cons y ys =>
        have heq : dumpElemsTail (y :: ys) ++ ']' :: rest
            = ',' :: (' ' :: (dumpVal y ++ (dumpElemsTail ys ++ ']' :: rest))) := by
          show (',' :: ' ' :: dumpVal y ++ dumpElemsTail ys) ++ ']' :: rest = _
          simp
        rw [heq]
        have hE := ((IH (N - 1) hN2).2.1) y ys (by rw [hsz] at hN; omega) g
          (by rw [hsz] at hfuel; omega) [' '] (by simp [isJsonWs]) rest
        simp only [List.singleton_append] at hE
        simp only [skipWs_cons (by decide : isJsonWs ',' = false), hE]
    · -- object members
      intro kv kvs hN fuel hfuel pre hpre rest
      have hv1 : 1 ≤ jsize kv.2 := jsize_pos kv.2
      have hsz : jsizeM (kv :: kvs) = 1 + jsize kv.2 + jsizeM kvs := rfl
      obtain ⟨g, rfl⟩ : ∃ g, fuel = g + 1 := ⟨fuel - 1, by omega⟩
      have hN2 : N - 1 < N := by omega
      have hsplit : dumpStrChars kv.1 ++ (':' :: ' ' :: (dumpVal kv.2
          ++ (dumpMembersTail kvs ++ '\x7d' :: rest)))
          = '"' :: (escString kv.1.data ++ '"' :: (':' :: ' ' :: (dumpVal kv.2
              ++ (dumpMembersTail kvs ++ '\x7d' :: rest)))) := by
        simp [dumpStrChars]
      have h1 : skipWs (pre ++ (dumpStrChars kv.1 ++ (':' :: ' ' :: (dumpVal kv.2
          ++ (dumpMembersTail kvs ++ '\x7d' :: rest)))))
          = '"' :: (escString kv.1.data ++ '"' :: (':' :: ' ' :: (dumpVal kv.2
              ++ (dumpMembersTail kvs ++ '\x7d' :: rest)))) := by
        rw [skipWs_ws_front pre hpre, hsplit, skipWs_cons (by decide : isJsonWs '"' = false)]
      have h2 : parseStrBody [] (escString kv.1.data ++ '"' :: (':' :: ' ' :: (dumpVal kv.2
          ++ (dumpMembersTail kvs ++ '\x7d' :: rest))))
          = some (kv.1.data, ':' :: ' ' :: (dumpVal kv.2
              ++ (dumpMembersTail kvs ++ '\x7d' :: rest))) := by
        rw [parseStrBody_escString]
        simp
      have h3 : skipWs (':' :: ' ' :: (dumpVal kv.2
          ++ (dumpMembersTail kvs ++ '\x7d' :: rest)))
          = ':' :: (' ' :: (dumpVal kv.2 ++ (dumpMembersTail kvs ++ '\x7d' :: rest))) :=
        skipWs_cons (by decide) _
      have h4 : parseVal g (' ' :: (dumpVal kv.2 ++ (dumpMembersTail kvs ++ '\x7d' :: rest)))
          = some (kv.2, dumpMembersTail kvs ++ '\x7d' :: rest) := by
        rw [show (' ' :: (dumpVal kv.2 ++ (dumpMembersTail kvs ++ '\x7d' :: rest)))
            = [' '] ++ (dumpVal kv.2 ++ (dumpMembersTail kvs ++ '\x7d' :: rest)) from rfl]
        rw [parseVal_ws_front [' '] (by simp [isJsonWs])]
        exact ((IH (N - 1) hN2).1) kv.2 (by omega) g (by omega)
          (dumpMembersTail kvs ++ '\x7d' :: rest) (headNotDigit_membersTail kvs rest)
      rw [parseMembers_run g _ _ _ _ _ _ _ h1 h2 h3 h4]
      cases kvs with
      | nil =>
        rw [show dumpMembersTail ([] : List (String × Json)) ++ '\x7d' :: rest
            = '\x7d' :: rest from rfl]
        simp only [skipWs_cons (by decide : isJsonWs '\x7d' = false)]
      | cons kv2 kvs2 =>
        have heq : dumpMembersTail (kv2 :: kvs2) ++ '\x7d' :: rest
            = ',' :: (' ' :: (dumpStrChars kv2.1 ++ (':' :: ' ' :: (dumpVal kv2.2
                ++ (dumpMembersTail kvs2 ++ '\x7d' :: rest))))) := by
          show (',' :: ' ' :: dumpStrChars kv2.1 ++ ':' :: ' ' :: dumpVal kv2.2
              ++ dumpMembersTail kvs2) ++ '\x7d' :: rest = _
          simp
        rw [heq]
        have hMem := ((IH (N - 1) hN2).2.2) kv2 kvs2 (by rw [hsz] at hN; omega) g
          (by rw [hsz] at hfuel; omega) [' '] (by simp [isJsonWs]) rest
        simp only [List.singleton_append] at hMem
        simp only [skipWs_cons (by decide : isJsonWs ',' = false), hMem]

lemma one_le_len_dump (v : Json) : 1 ≤ (dumpVal v).length := by
  obtain ⟨c, t, hv, -, -⟩ := dumpVal_head v
  rw [hv]
  simp

theorem jsize_le_bundle : ∀ N : Nat,
    (∀ v : Json, jsize v ≤ N → jsize v ≤ (dumpVal v).length) ∧
    (∀ xs : List Json, jsizeL xs ≤ N → jsizeL xs ≤ (dumpElemsTail xs).length) ∧
    (∀ kvs : List (String × Json), jsizeM kvs ≤ N → jsizeM kvs ≤ (dumpMembersTail kvs).length) := by
  intro N
  induction N using Nat.strong_induction_on with
  | _ N IH =>
    refine ⟨?_, ?_, ?_⟩
    · intro v hN
      cases v with
      | null => simp [jsize, dumpVal]
      | bool b => cases b <;> simp [jsize, dumpVal]
      | num n => calc jsize (.num n) = 1 := rfl
          _ ≤ (dumpVal (.num n)).length := one_le_len_dump _
      | str s =>
        calc jsize (.str s) = 1 := rfl
          _ ≤ (dumpVal (.str s)).length := one_le_len_dump _
      | arr xs =>
        cases xs with
        | nil => simp [jsize, jsizeL, dumpVal]
        | cons x xs =>
          have hx : jsize x ≤ (dumpVal x).length := by
            refine ((IH (N - 1) ?_).1) x ?_ <;>
              · have h1 : jsize (Json.arr (x :: xs)) = 1 + jsizeL (x :: xs) := rfl
                have h1b : jsizeL (x :: xs) = 1 + jsize x + jsizeL xs := rfl
                have := jsize_pos x
                omega
          have hxs : jsizeL xs ≤ (dumpElemsTail xs).length := by
            refine ((IH (N - 1) ?_).2.1) xs ?_ <;>
              · have h1 : jsize (Json.arr (x :: xs)) = 1 + jsizeL (x :: xs) := rfl
                have h1b : jsizeL (x :: xs) = 1 + jsize x + jsizeL xs := rfl
                have := jsize_pos x
                omega
          have h1 : jsize (Json.arr (x :: xs)) = 1 + jsizeL (x :: xs) := rfl
          have h1b : jsizeL (x :: xs) = 1 + jsize x + jsizeL xs := rfl
          have h2 : (dumpVal (.arr (x :: xs))).length
              = 2 + (dumpVal x).length + (dumpElemsTail xs).length := by
            show (('[' :: (dumpVal x ++ dumpElemsTail xs) ++ [']']) : List Char).length = _
            simp
            omega
          omega
      | obj kvs =>
        cases kvs with
        | nil => simp [jsize, jsizeM, dumpVal]
        | cons kv kvs =>
          have hx : jsize kv.2 ≤ (dumpVal kv.2).length := by
            refine ((IH (N - 1) ?_).1) kv.2 ?_ <;>
              · have h1 : jsize (Json.obj (kv :: kvs)) = 1 + jsizeM (kv :: kvs) := rfl
                have h1b : jsizeM (kv :: kvs) = 1 + jsize kv.2 + jsizeM kvs := rfl
                have := jsize_pos kv.2
                omega
          have hxs : jsizeM kvs ≤ (dumpMembersTail kvs).length := by
            refine ((IH (N - 1) ?_).2.2) kvs ?_ <;>
              · have h1 : jsize (Json.obj (kv :: kvs)) = 1 + jsizeM (kv :: kvs) := rfl
                have h1b : jsizeM (kv :: kvs) = 1 + jsize kv.2 + jsizeM kvs := rfl
                have := jsize_pos kv.2
                omega
          have h1 : jsize (Json.obj (kv :: kvs)) = 1 + jsizeM (kv :: kvs) := rfl
          have h1b : jsizeM (kv :: kvs) = 1 + jsize kv.2 + jsizeM kvs := rfl
          have hk : 2 ≤ (dumpStrChars kv.1).length := by
            show 2 ≤ (('"' :: escString kv.1.data ++ ['"']) : List Char).length
            simp
          have h2 : (dumpVal (.obj (kv :: kvs))).length
              = 2 + (dumpStrChars kv.1).length + 2 + (dumpVal kv.2).length
                + (dumpMembersTail kvs).length := by
            show (('\x7b' :: (dumpStrChars kv.1 ++ ':' :: ' ' :: dumpVal kv.2
                ++ dumpMembersTail kvs) ++ ['\x7d']) : List Char).length = _
            simp
            omega
          omega
    · intro xs hN
      cases xs with
      | nil => simp [jsizeL, dumpElemsTail]
      | cons y ys =>
        have h1 : jsizeL (y :: ys) = 1 + jsize y + jsizeL ys := rfl
        have hy : jsize y ≤ (dumpVal y).length := by
          refine ((IH (N - 1) ?_).1) y ?_ <;>
            · have := jsize_pos y; omega
        have hys : jsizeL ys ≤ (dumpElemsTail ys).length := by
          refine ((IH (N - 1) ?_).2.1) ys ?_ <;>
            · have := jsize_pos y; omega
        have h2 : (dumpElemsTail (y :: ys)).length
            = 2 + (dumpVal y).length + (dumpElemsTail ys).length := by
          show ((',' :: ' ' :: dumpVal y ++ dumpElemsTail ys) : List Char).length = _
          simp
          omega
        omega
    · intro kvs hN
      cases kvs with
      | nil => simp [jsizeM, dumpMembersTail]
      | cons kv kvs =>
        have h1 : jsizeM (kv :: kvs) = 1 + jsize kv.2 + jsizeM kvs := rfl
        have hy : jsize kv.2 ≤ (dumpVal kv.2).length := by
          refine ((IH (N - 1) ?_).1) kv.2 ?_ <;>
            · have := jsize_pos kv.2; omega
        have hys : jsizeM kvs ≤ (dumpMembersTail kvs).length := by
          refine ((IH (N - 1) ?_).2.2) kvs ?_ <;>
            · have := jsize_pos kv.2; omega
        have hk : 2 ≤ (dumpStrChars kv.1).length := by
          show 2 ≤ (('"' :: escString kv.1.data ++ ['"']) : List Char).length
          simp
        have h2 : (dumpMembersTail (kv :: kvs)).length
            = 2 + (dumpStrChars kv.1).length + 2 + (dumpVal kv.2).length
              + (dumpMembersTail kvs).length := by
          show ((',' :: ' ' :: dumpStrChars kv.1 ++ ':' :: ' ' :: dumpVal kv.2
              ++ dumpMembersTail kvs) : List Char).length = _
          simp
          omega
        omega

/-- The reader inverts the serializer: `json.loads (json.dumps v)`
always succeeds and returns `v`. -/
theorem loads_dumps (v : Json) : loads (dumps v) = some v := by
  show loadsChars (dumpVal v) = some v
  unfold loadsChars
  have hlen : jsize v ≤ (dumpVal v).length + 1 := by
    have := (jsize_le_bundle (jsize v)).1 v le_rfl
    omega
  have h := (roundtrip_bundle (jsize v)).1 v le_rfl ((dumpVal v).length + 1) hlen
    [] headNotDigit_nil
  rw [List.append_nil] at h
  simp only [h]
  rfl

/-! ## Header normalization (`patient_automation.py`, lines 108-143)

`aliases` is the literal table from the source; `lower_map` is the dict
comprehension `{c.lower().strip(): c for c in df.columns}` (later columns
overwrite earlier ones on key collision); for each canonical name not
already a column the code walks its variant list in order and takes the
first hit; `df.rename(columns=renames)` then maps every column through the
rename dict.  (`if src:` in the source is truthiness of the column name
returned by `lower_map.get`; such a name can never be the empty string
because every variant key is non-empty, so `Option` models it exactly.) -/

def tsVariants : List String := ["timestamp", "time", "date/time", "date"]

def nameVariants : List String := ["name", "full name", "your name"]

def emailVariants : List String := ["email", "e-mail", "mail", "your email"]

def symVariants : List String :=
  ["symptoms", "message", "symptoms / message", "symptom details",
   "description", "issue", "problem", "notes", "details", "comments",
   "messages", "patient message"]

def urgVariants : List String := ["urgency", "priority", "severity", "how urgent"]

def aliases : List (String × List String) :=
  [("Timestamp", tsVariants), ("Name", nameVariants), ("Email", emailVariants),
   ("Symptoms", symVariants), ("Urgency", urgVariants)]

def required_cols : List String := ["Timestamp", "Name", "Email", "Symptoms", "Urgency"]

def variantsOf (c : String) : List String :=
  if c = "Timestamp" then tsVariants
  else if c = "Name" then nameVariants
  else if c = "Email" then emailVariants
  else if c = "Symptoms" then symVariants
  else if c = "Urgency" then urgVariants
  else []

/-- `lower_map.get(k)`: the column whose lowered, stripped name is `k`
(the last such column, dict-comprehension style). -/
def lowerMapGet (cols : List String) (k : String) : Option String :=
  (cols.filter (fun c => lowerKey c == k)).getLast?

/-- The inner loop over `variants`: first variant with a hit wins. -/
def findSrc (cols : List String) (variants : List String) : Option String :=
  variants.findSome? (fun v => lowerMapGet cols (lowerKey v))

def renameFor (cols : List String) (canonical : String) (variants : List String) :
    List (String × String) :=
  if canonical ∈ cols then []
  else
    match findSrc cols variants with
    | some src => [(src, canonical)]
    | none => []

/-- The `renames` dict, as the ordered list of its insertions. -/
def renames (cols : List String) : List (String × String) :=
  renameFor cols "Timestamp" tsVariants ++ renameFor cols "Name" nameVariants
    ++ renameFor cols "Email" emailVariants ++ renameFor cols "Symptoms" symVariants
    ++ renameFor cols "Urgency" urgVariants

/-- `df.rename(columns=renames)` on one column name (a Python dict lookup:
the last insertion with a given key wins). -/
def renameApply (cols : List String) (c : String) : String :=
  match ((renames cols).reverse).lookup c with
  | some c2 => c2
  | none => c

def applyRenames (cols : List String) : List String := cols.map (renameApply cols)

/-- `missing = [c for c in required_cols if c not in df.columns]` after
renaming. -/
def missingCols (cols2 : List String) : List String :=
  required_cols.filter (fun c => decide (¬ c ∈ cols2))

/-- A canonical field is resolvable from a header set when the exact name is
present or some variant matches up to lowering and stripping. -/
def resolvable (cols : List String) (canonical : String) (variants : List String) : Prop :=
  canonical ∈ cols ∨ ∃ h ∈ cols, ∃ v ∈ variants, lowerKey h = lowerKey v

instance (cols canonical variants) : Decidable (resolvable cols canonical variants) := by
  unfold resolvable
  infer_instance

/-! Facts about the concrete alias table, checked by evaluation. -/

lemma variant_keys_disjoint : ∀ b ∈ required_cols, ∀ b2 ∈ required_cols,
    ∀ v ∈ variantsOf b, ∀ w ∈ variantsOf b2, lowerKey v = lowerKey w → b = b2 := by
  decide

lemma canonical_key_own : ∀ c ∈ required_cols, ∀ b ∈ required_cols,
    ∀ v ∈ variantsOf b, lowerKey c = lowerKey v → c = b := by
  decide

lemma getLast?_mem {α : Type} {l : List α} {a : α} (h : l.getLast? = some a) : a ∈ l := by
  obtain ⟨l2, rfl⟩ := List.getLast?_eq_some_iff.1 h
  simp

lemma lookup_some_mem {l : List (String × String)} {a b : String}
    (h : l.lookup a = some b) : (a, b) ∈ l := by
  induction l with
  | nil => simp [List.lookup] at h
  | cons p t ih =>
    rw [List.lookup_cons] at h
    cases hk : (a == p.1) with
    | true =>
      simp only [hk] at h
      have ha : a = p.1 := by simpa using hk
      simp only [Option.some.injEq] at h
      have : (a, b) = p := by rw [ha, ← h]
      rw [this]
      exact List.mem_cons_self p t
    | false =>
      simp only [hk] at h
      exact List.mem_cons_of_mem _ (ih h)

lemma lookup_none_of_not_key {l : List (String × String)} {a : String}
    (h : ∀ b, ¬ (a, b) ∈ l) : l.lookup a = none := by
  induction l with
  | nil => rfl
  | cons p t ih =>
    rw [List.lookup_cons]
    cases hk : (a == p.1) with
    | true =>
      exfalso
      have ha : a = p.1 := by simpa using hk
      exact h p.2 (by rw [ha]; simp)
    | false =>
      exact ih (fun b hb => h b (List.mem_cons_of_mem _ hb))

lemma lookup_unique_key {l : List (String × String)} {a b : String}
    (hmem : (a, b) ∈ l) (huniq : ∀ b2, (a, b2) ∈ l → b2 = b) : l.lookup a = some b := by
  induction l with
  | nil => simp at hmem
  | cons p t ih =>
    rw [List.lookup_cons]
    cases hk : (a == p.1) with
    | true =>
      have ha : a = p.1 := by simpa using hk
      have : p.2 = b := huniq p.2 (by rw [ha]; simp)
      simp [this]
    | false =>
      rcases List.mem_cons.1 hmem with heq | hmem2
      · exfalso
        have : a = p.1 := by rw [← heq]
        simp [this] at hk
      · exact ih hmem2 (fun b2 hb2 => huniq b2 (List.mem_cons_of_mem _ hb2))

lemma lowerMapGet_spec {cols : List String} {k : String} {c : String}
    (h : lowerMapGet cols k = some c) : c ∈ cols ∧ lowerKey c = k := by
  have hm := getLast?_mem h
  have := List.mem_filter.1 hm
  refine ⟨this.1, ?_⟩
  have := this.2
  simpa using this

lemma lowerMapGet_isSome {cols : List String} {k : String}
    (h : ∃ c ∈ cols, lowerKey c = k) : (lowerMapGet cols k).isSome := by
  rw [lowerMapGet, List.getLast?_isSome]
  intro hnil
  obtain ⟨c, hc, hk⟩ := h
  have := List.filter_eq_nil_iff.1 hnil c hc
  simp [hk] at this

lemma mem_renameFor {cols : List String} {X : String} {V : List String}
    {a b : String} :
    (a, b) ∈ renameFor cols X V ↔ b = X ∧ X ∉ cols ∧ findSrc cols V = some a := by
  unfold renameFor
  by_cases hX : X ∈ cols
  · simp [hX]
  · rw [if_neg hX]
    cases hf : findSrc cols V with
    | none => simp [hX, hf]
    | some src =>
      show (a, b) ∈ [(src, X)] ↔ _
      simp only [List.mem_singleton, Prod.mk.injEq]
      constructor
      · rintro ⟨rfl, rfl⟩
        exact ⟨rfl, hX, rfl⟩
      · rintro ⟨rfl, -, hsome⟩
        have hsa : a = src := by simpa using hsome.symm
        exact ⟨hsa, rfl⟩

lemma mem_renames {cols : List String} {a b : String} :
    (a, b) ∈ renames cols
      ↔ b ∈ required_cols ∧ b ∉ cols ∧ findSrc cols (variantsOf b) = some a := by
  unfold renames
  simp only [List.mem_append, mem_renameFor]
  constructor
  · rintro ((((⟨rfl, h1, h2⟩ | ⟨rfl, h1, h2⟩) | ⟨rfl, h1, h2⟩) | ⟨rfl, h1, h2⟩)
      | ⟨rfl, h1, h2⟩)
    · exact ⟨by decide, h1, h2⟩
    · exact ⟨by decide, h1, h2⟩
    · exact ⟨by decide, h1, h2⟩
    · exact ⟨by decide, h1, h2⟩
    · exact ⟨by decide, h1, h2⟩
  · rintro ⟨hb, h1, h2⟩
    fin_cases hb
    · exact Or.inl (Or.inl (Or.inl (Or.inl ⟨rfl, h1, h2⟩)))
    · exact Or.inl (Or.inl (Or.inl (Or.inr ⟨rfl, h1, h2⟩)))
    · exact Or.inl (Or.inl (Or.inr ⟨rfl, h1, h2⟩))
    · exact Or.inl (Or.inr ⟨rfl, h1, h2⟩)
    · exact Or.inr ⟨rfl, h1, h2⟩

lemma renameApply_eq_self {cols : List String} {C : String}
    (hC : C ∈ required_cols) (hmem : C ∈ cols) : renameApply cols C = C := by
  have h : ((renames cols).reverse).lookup C = none := by
    apply lookup_none_of_not_key
    intro b hb
    rw [List.mem_reverse] at hb
    obtain ⟨hbreq, hbnot, hfind⟩ := mem_renames.1 hb
    obtain ⟨v, hv, hlm⟩ := List.exists_of_findSome?_eq_some hfind
    obtain ⟨-, hkey⟩ := lowerMapGet_spec hlm
    have hcb : C = b := canonical_key_own C hC b hbreq v hv hkey
    exact hbnot (hcb ▸ hmem)
  unfold renameApply
  rw [h]

lemma renameApply_src {cols : List String} {C src : String}
    (hC : C ∈ required_cols) (hfind : findSrc cols (variantsOf C) = some src)
    (hnot : C ∉ cols) : renameApply cols src = C := by
  have hmem : (src, C) ∈ (renames cols).reverse := by
    rw [List.mem_reverse]
    exact mem_renames.2 ⟨hC, hnot, hfind⟩
  have huniq : ∀ b2, (src, b2) ∈ (renames cols).reverse → b2 = C := by
    intro b2 hb2
    rw [List.mem_reverse] at hb2
    obtain ⟨hb2req, -, hfind2⟩ := mem_renames.1 hb2
    obtain ⟨v, hv, hlm⟩ := List.exists_of_findSome?_eq_some hfind2
    obtain ⟨-, hkv⟩ := lowerMapGet_spec hlm
    obtain ⟨w, hw, hlw⟩ := List.exists_of_findSome?_eq_some hfind
    obtain ⟨-, hkw⟩ := lowerMapGet_spec hlw
    exact variant_keys_disjoint b2 hb2req C hC v hv w hw (hkv.symm.trans hkw)
  have h := lookup_unique_key hmem huniq
  unfold renameApply
  rw [h]

/-- A canonical field name is among the renamed columns exactly when the
header set resolves it (exact match or case/whitespace variant of one of
its synonyms). -/
lemma mem_applyRenames_iff {cols : List String} {C : String} (hC : C ∈ required_cols) :
    C ∈ applyRenames cols ↔ resolvable cols C (variantsOf C) := by
  constructor
  · intro h
    obtain ⟨d, hd, hda⟩ := List.mem_map.1 h
    unfold renameApply at hda
    cases hl : ((renames cols).reverse).lookup d with
    | none =>
      rw [hl] at hda
      left
      rw [← hda]
      exact hd
    | some b =>
      rw [hl] at hda
      have hb := lookup_some_mem hl
      rw [List.mem_reverse] at hb
      obtain ⟨hbreq, hbnot, hfind⟩ := mem_renames.1 hb
      subst hda
      obtain ⟨v, hv, hlm⟩ := List.exists_of_findSome?_eq_some hfind
      obtain ⟨hdcols, hk⟩ := lowerMapGet_spec hlm
      right
      exact ⟨d, hdcols, v, hv, hk⟩
  · intro h
    by_cases hmem : C ∈ cols
    · exact List.mem_map.2 ⟨C, hmem, renameApply_eq_self hC hmem⟩
    rcases h with hmem2 | ⟨h2, hh, v, hv, hkey⟩
    · exact absurd hmem2 hmem
    have hsome : (lowerMapGet cols (lowerKey v)).isSome := lowerMapGet_isSome ⟨h2, hh, hkey⟩
    have hfs : ∃ src, findSrc cols (variantsOf C) = some src := by
      cases hc : findSrc cols (variantsOf C) with
      | some s => exact ⟨s, rfl⟩
      | none =>
        exfalso
        have hnone : lowerMapGet cols (lowerKey v) = none :=
          List.findSome?_eq_none_iff.1 hc v hv
        rw [hnone] at hsome
        simp at hsome
    obtain ⟨src, hsrc⟩ := hfs
    obtain ⟨vv, hvv, hlm⟩ := List.exists_of_findSome?_eq_some hsrc
    obtain ⟨hsrccols, -⟩ := lowerMapGet_spec hlm
    exact List.mem_map.2 ⟨src, hsrccols, renameApply_src hC hsrc hmem⟩

/-- The first variant with a hit decides which column is chosen. -/
lemma findSrc_first {cols : List String} {V : List String} {v0 : String}
    (h : V.find? (fun v => (lowerMapGet cols (lowerKey v)).isSome) = some v0) :
    findSrc cols V = lowerMapGet cols (lowerKey v0) := by
  induction V with
  | nil => simp at h
  | cons w ws ih =>
    cases hw : (lowerMapGet cols (lowerKey w)).isSome with
    | true =>
      rw [List.find?_cons_of_pos _ (by simpa using hw)] at h
      have hv0 : w = v0 := by simpa using h
      subst hv0
      obtain ⟨s, hs⟩ := Option.isSome_iff_exists.1 hw
      show (w :: ws).findSome? (fun v => lowerMapGet cols (lowerKey v)) = _
      rw [List.findSome?_cons]
      simp [hs]
    | false =>
      rw [List.find?_cons_of_neg _ (by simpa using hw)] at h
      have hnone : lowerMapGet cols (lowerKey w) = none := by
        cases hx : lowerMapGet cols (lowerKey w)
        · rfl
        · rw [hx] at hw; simp at hw
      show (w :: ws).findSome? (fun v => lowerMapGet cols (lowerKey v)) = _
      rw [List.findSome?_cons]
      simp only [hnone]
      exact ih h

/-! ## Summarizer adapter (`ai_summarize`, lines 218-266) -/

/-- The fallback record built when the backend reply does not parse as the
expected structure (lines 255-260): `content[:600]` as summary,
`urgency or "Unknown"`, empty keywords.  `content` is the reply after the
`.strip()` on line 245. -/
def fallback600 (content urgency : String) : Json :=
  Json.obj [("summary", Json.str (pySlice 600 content)),
            ("urgency", Json.str (pyOrS urgency "Unknown")),
            ("keywords", Json.arr [])]

/-- The inner `try` of the structured branch (lines 247-254), with Python
attribute/`or` semantics: `parsed` must be a dict (`.get` raises
otherwise); its `summary` value (defaulted to `""`) must be a string
(`.strip()` raises otherwise); its `urgency` value enters an `or` chain and
must be a string when truthy; `keywords` may be any value.  `none` models
an exception caught by the inner `except`. -/
def extractOut (parsed : Json) (urgency : String) : Option (String × String × Json) :=
  match parsed with
  | .obj kvs =>
    match (objGetLast kvs "summary").getD (.str "") with
    | .str s =>
      let uv := (objGetLast kvs "urgency").getD .null
      let uChoice : Option String :=
        if pyTruthy uv then
          match uv with
          | .str u => some u
          | _ => none
        else some (pyOrS urgency "Unknown")
      match uChoice with
      | some u => some (pyStrip s, pyStrip u, (objGetLast kvs "keywords").getD (.arr []))
      | none => none
    | _ => none
  | _ => none

def structuredParse (content : String) (urgency : String) :
    Option (String × String × Json) :=
  (loads content).bind (fun parsed => extractOut parsed urgency)

/-- `ai_summarize` as the JSON object each branch passes to `json.dumps`.
`backendResp` is the outcome of the single OpenAI call per row:
`Except.error e` is an exception from the call, `Except.ok raw` a reply
whose content is `raw` (stripped on line 245 before any use).
`(symptoms or "")` equals `symptoms` for strings, so it is dropped. -/
def aiSummarizeObj (useOpenai : Bool) (backendResp : Except String String)
    (symptoms urgency : String) : Json :=
  if useOpenai = false then
    Json.obj [("summary", Json.str ("Reported symptoms: "
                ++ pyReplaceNl (pySlice 200 symptoms) ++ "...")),
              ("urgency", Json.str (pyOrS urgency "Unknown")),
              ("keywords", Json.arr [])]
  else
    match backendResp with
    | .error e =>
      Json.obj [("summary", Json.str ("(OpenAI error: " ++ e ++ ")")),
                ("urgency", Json.str (pyOrS urgency "Unknown")),
                ("keywords", Json.arr [])]
    | .ok raw =>
      let content := pyStrip raw
      match structuredParse content urgency with
      | some out =>
        Json.obj [("summary", Json.str out.1), ("urgency", Json.str out.2.1),
                  ("keywords", out.2.2)]
      | none => fallback600 content urgency

/-- The JSON string `ai_summarize` returns. -/
def ai_summarize (useOpenai : Bool) (backendResp : Except String String)
    (symptoms urgency : String) : String :=
  dumps (aiSummarizeObj useOpenai backendResp symptoms urgency)

/-- Cell content for a parsed JSON value appended to the archive row (for
everything this script produces the value is already a string). -/
def cellOf : Json → String
  | .str s => s
  | v => dumps v

/-- Lines 315-322: re-parse `ai_json` and pick the archive fields
`summary_text` and `urgency_final`; the `Bool` records whether the
`except` fallback was taken. -/
def archiveFields (aiJson : String) (urgency : String) : String × String × Bool :=
  match loads aiJson with
  | some (Json.obj kvs) =>
    (cellOf ((objGetLast kvs "summary").getD (.str "")),
     cellOf ((objGetLast kvs "urgency").getD (.str (pyOrS urgency "Unknown"))),
     false)
  | some _ => (aiJson, pyOrS urgency "Unknown", true)
  | none => (aiJson, pyOrS urgency "Unknown", true)

/-! ## The spreadsheet world and one whole run -/

structure Config where
  useOpenai : Bool
  processedSheet : String

/-- Outcomes of the external services, indexed by the data-row position
where relevant.  `emailOk` is `yag is not None` (credentials set and login
succeeded), `slackOk` is a configured Slack client. -/
structure Effects where
  emailOk : Bool
  emailSendOk : Nat → Bool
  emailSendErr : Nat → String
  slackOk : Bool
  slackSendOk : Nat → Bool
  slackSendErr : Nat → String
  markOk : Nat → Bool
  markErr : Nat → String
  appendOk : Nat → Bool
  appendErr : Nat → String
  backend : Nat → Except String String

/-- The source sheet (row 1 headers, then data rows, cells as strings) and
whether the archive worksheet already exists. -/
structure World where
  archivePresent : Bool
  headers : List String
  dataRows : List (List String)

/-- Sheet mutations and notification calls, in program order. -/
inductive Event where
  | createArchive (header : List String)
  | setHeaderCell (col : Nat) (name : String)
  | emailAttempt (i : Nat) (ok : Bool)
  | slackAttempt (i : Nat) (ok : Bool)
  | markCell (row col : Nat) (val : String) (ok : Bool)
  | appendRow (vals : List String) (ok : Bool)
deriving DecidableEq

/-- `row.get(c, "")` for a record row laid out positionally under `cols`
(cells missing at the end read as `""`, as `get_all_records` pads). -/
def dfGet (cols : List String) (r : List String) (c : String) : String :=
  match cols.indexOf? c with
  | some j => r.getD j ""
  | none => ""

/-- The Ledger Filter predicate: `df.get("Processed", "") != "Yes"`,
case-sensitive, no trimming (line 146). -/
def notProcessed (cols : List String) (r : List String) : Bool :=
  decide (dfGet cols r "Processed" ≠ "Yes")

/-- `new_rows_df = df[df.get("Processed", "") != "Yes"]` on plain rows. -/
def ledgerFilter (cols : List String) (rows : List (List String)) : List (List String) :=
  rows.filter (notProcessed cols)

def padTo (r : List String) (n : Nat) : List String :=
  r ++ List.replicate (n - r.length) ""

/-- Writing `val` into the `c` column of row `r` (padding the row, as a
sheet write followed by a padded re-read does). -/
def setField (cols : List String) (r : List String) (c val : String) : List String :=
  match cols.indexOf? c with
  | some j => (padTo r (j + 1)).set j val
  | none => r

/-- Mark `Processed = "Yes"` on exactly the rows the filter returned. -/
def markYesAll (cols : List String) (rows : List (List String)) : List (List String) :=
  rows.map (fun r => if notProcessed cols r then setField cols r "Processed" "Yes" else r)

def archiveHeader : List String :=
  ["Timestamp", "Name", "Email", "Summary", "Urgency", "Status"]

/-- Lines 103-106: ensure a `Processed` column exists (appended at the end
when absent). -/
def colsAfterEnsure (headers : List String) : List String :=
  if "Processed" ∈ headers then headers else headers ++ ["Processed"]

/-- The unprocessed rows with their original zero-based positions: pandas
filtering keeps the original `RangeIndex` labels. -/
def selectedOf (w : World) : List (Nat × List String) :=
  (w.dataRows.enum).filter
    (fun p => notProcessed (applyRenames (colsAfterEnsure w.headers)) p.2)

/-- `processed_col_idx = ensure_column(sheet, "Processed")` (1-based index
in the sheet header row, which renaming never touches). -/
def pcolOf (w : World) : Nat := (colsAfterEnsure w.headers).indexOf "Processed" + 1

def emptySheetMsg : String :=
  "ℹ️ Sheet is empty. Submit one test response in the Form, then re-run."

def noNewMsg : String := "✅ No new inquiries."

def pyRepr (s : String) : String := "\x27" ++ s ++ "\x27"

def pyListRepr (xs : List String) : String :=
  "[" ++ String.intercalate ", " (xs.map pyRepr) ++ "]"

def colsPresentMsg (cols : List String) : String :=
  "Columns present: " ++ pyListRepr cols

def missingMsg (missing : List String) : String :=
  "❌ Missing required columns after normalization: " ++ pyListRepr missing
    ++ ". Rename your sheet headers or adjust Form question titles."

def markFailMsg (sheetRow : Nat) (e : String) : String :=
  "⚠️ Could not mark row " ++ toString sheetRow ++ " as processed: " ++ e

def appendFailMsg (sheetName e : String) : String :=
  "⚠️ Could not append to \x27" ++ sheetName ++ "\x27: " ++ e

def finalMsg (n : Nat) : String :=
  "✅ All new entries processed. Rows updated: " ++ toString n

/-- The archive row appended for one inquiry (line 325). -/
def archRowOf (cfg : Config) (eff : Effects) (i : Nat) (cols r : List String) :
    List String :=
  [pyStrip (dfGet cols r "Timestamp"), pyStrip (dfGet cols r "Name"),
   pyStrip (dfGet cols r "Email"),
   (archiveFields (ai_summarize cfg.useOpenai (eff.backend i)
       (pyStrip (dfGet cols r "Symptoms")) (pyStrip (dfGet cols r "Urgency")))
     (pyStrip (dfGet cols r "Urgency"))).1,
   (archiveFields (ai_summarize cfg.useOpenai (eff.backend i)
       (pyStrip (dfGet cols r "Symptoms")) (pyStrip (dfGet cols r "Urgency")))
     (pyStrip (dfGet cols r "Urgency"))).2.1,
   "Processed"]

/-- The body of the `for idx, row in new_rows_df.iterrows()` loop
(lines 273-329): logs emitted and sheet/channel events, in order. -/
def processRow (cfg : Config) (eff : Effects) (pcol : Nat) (i : Nat)
    (cols : List String) (r : List String) : List String × List Event :=
  let name := pyStrip (dfGet cols r "Name")
  let emailLogs :=
    if eff.emailOk then
      if eff.emailSendOk i then ["📧 Sent summary for " ++ pyOrS name "(no name)"]
      else ["⚠️ Email send failed for " ++ pyOrS name "(no name)" ++ ": "
              ++ eff.emailSendErr i]
    else ["ℹ️ Skipping email for " ++ pyOrS name "(no name)" ++ " (SMTP unavailable)"]
  let emailEvts := if eff.emailOk then [Event.emailAttempt i (eff.emailSendOk i)] else []
  let slackLogs :=
    if eff.slackOk && !(eff.slackSendOk i)
    then ["⚠️ Slack send failed: " ++ eff.slackSendErr i] else []
  let slackEvts := if eff.slackOk then [Event.slackAttempt i (eff.slackSendOk i)] else []
  let markLogs := if eff.markOk i then [] else [markFailMsg (i + 2) (eff.markErr i)]
  let appendLogs :=
    if eff.appendOk i then [] else [appendFailMsg cfg.processedSheet (eff.appendErr i)]
  (emailLogs ++ slackLogs ++ markLogs ++ appendLogs,
   emailEvts ++ slackEvts
     ++ [Event.markCell (i + 2) pcol "Yes" (eff.markOk i),
         Event.appendRow (archRowOf cfg eff i cols r) (eff.appendOk i)])

structure RunOut where
  exitCode : Nat
  logs : List String
  events : List Event
deriving DecidableEq

/-- One whole run of the script, from the archive-sheet ensure to the final
count, as a pure function of the world and the effect outcomes. -/
def runScript (cfg : Config) (eff : Effects) (w : World) : RunOut :=
  if w.dataRows = [] ∨ w.headers = [] then
    { exitCode := 0, logs := [emptySheetMsg],
      events := if w.archivePresent then [] else [Event.createArchive archiveHeader] }
  else
    if missingCols (applyRenames (colsAfterEnsure w.headers)) = [] then
      if selectedOf w = [] then
        { exitCode := 0, logs := [noNewMsg],
          events := (if w.archivePresent then [] else [Event.createArchive archiveHeader])
            ++ (if "Processed" ∈ w.headers then []
                else [Event.setHeaderCell (w.headers.length + 1) "Processed"]) }
      else
        { exitCode := 0,
          logs := (((selectedOf w).map (fun p => processRow cfg eff (pcolOf w) p.1
              (applyRenames (colsAfterEnsure w.headers)) p.2)).map Prod.fst).flatten
            ++ [finalMsg (selectedOf w).length],
          events := (if w.archivePresent then [] else [Event.createArchive archiveHeader])
            ++ (if "Processed" ∈ w.headers then []
                else [Event.setHeaderCell (w.headers.length + 1) "Processed"])
            ++ (((selectedOf w).map (fun p => processRow cfg eff (pcolOf w) p.1
                (applyRenames (colsAfterEnsure w.headers)) p.2)).map Prod.snd).flatten }
    else
      { exitCode := 1,
        logs := [colsPresentMsg (applyRenames (colsAfterEnsure w.headers)),
                 missingMsg (missingCols (applyRenames (colsAfterEnsure w.headers)))],
        events := (if w.archivePresent then [] else [Event.createArchive archiveHeader])
          ++ (if "Processed" ∈ w.headers then []
              else [Event.setHeaderCell (w.headers.length + 1) "Processed"]) }

/-! ## Claim theorems -/

lemma dfGet_setField_self {cols : List String} {r : List String}
    (h : "Processed" ∈ cols) :
    dfGet cols (setField cols r "Processed" "Yes") "Processed" = "Yes" := by
  unfold dfGet setField
  cases hidx : cols.indexOf? "Processed" with
  | none =>
    exfalso
    exact (List.indexOf?_eq_none_iff.1 hidx) "Processed" h (by simp)
  | some j =>
    have hlen : j < (padTo r (j + 1)).length := by
      simp [padTo]
      omega
    simp [List.getD_eq_getElem?_getD, List.getElem?_set_self hlen]

/-- Claim C1: the Ledger Filter returns the ordered subsequence of the rows
whose `Processed` value is not exactly the string `"Yes"` (case-sensitive,
no trimming), preserving sheet order; and after setting `Processed` to
`"Yes"` on every row the filter returned, a second filter pass returns the
empty sequence. -/
theorem C1_ledger_filter (cols : List String) (rows : List (List String))
    (h : "Processed" ∈ cols) :
    (ledgerFilter cols rows).Sublist rows
    ∧ (∀ r, r ∈ ledgerFilter cols rows ↔ r ∈ rows ∧ dfGet cols r "Processed" ≠ "Yes")
    ∧ ledgerFilter cols (markYesAll cols rows) = [] := by
  refine ⟨List.filter_sublist _, ?_, ?_⟩
  · intro r
    simp [ledgerFilter, List.mem_filter, notProcessed]
  · rw [ledgerFilter, List.filter_eq_nil_iff]
    intro r hr
    rw [markYesAll] at hr
    obtain ⟨r0, hr0, rfl⟩ := List.mem_map.1 hr
    cases hp : notProcessed cols r0 with
    | true =>
      simp only [hp, if_true]
      simp [notProcessed, dfGet_setField_self h]
    | false =>
      simp only [hp, if_false, Bool.false_eq_true, not_false_eq_true]

theorem C1_witness :
    ("Processed" ∈ (["Processed"] : List String))
    ∧ ((ledgerFilter ["Processed"] [["Yes"], ["no"]]).Sublist [["Yes"], ["no"]]
      ∧ (∀ r, r ∈ ledgerFilter ["Processed"] [["Yes"], ["no"]]
            ↔ r ∈ [["Yes"], ["no"]] ∧ dfGet ["Processed"] r "Processed" ≠ "Yes")
      ∧ ledgerFilter ["Processed"] (markYesAll ["Processed"] [["Yes"], ["no"]]) = []) :=
  ⟨by decide, C1_ledger_filter ["Processed"] [["Yes"], ["no"]] (by decide)⟩

/-- Claim C5: with no summarization backend configured, for every symptoms
and reported urgency the summary is the first 200 characters of the
symptoms with newlines collapsed to spaces, wrapped in the fixed
`Reported symptoms: ...` template; the urgency equals the reported urgency
when non-empty and `"Unknown"` otherwise; the keywords are empty. -/
theorem C5_fallback (symptoms urgency : String) (resp : Except String String) :
    aiSummarizeObj false resp symptoms urgency
      = Json.obj [("summary", Json.str ("Reported symptoms: "
            ++ pySlice 200 (pyReplaceNl symptoms) ++ "...")),
          ("urgency", Json.str (if urgency = "" then "Unknown" else urgency)),
          ("keywords", Json.arr [])] := by
  have hcomm : pyReplaceNl (pySlice 200 symptoms) = pySlice 200 (pyReplaceNl symptoms) := by
    simp [pyReplaceNl, pySlice, List.map_take]
  simp [aiSummarizeObj, hcomm, pyOrS]

lemma aiSummarizeObj_shape (useAi : Bool) (resp : Except String String)
    (symptoms urgency : String) :
    ∃ s u kw, aiSummarizeObj useAi resp symptoms urgency
      = Json.obj [("summary", Json.str s), ("urgency", Json.str u), ("keywords", kw)] := by
  cases useAi with
  | false =>
    exact ⟨"Reported symptoms: " ++ pyReplaceNl (pySlice 200 symptoms) ++ "...",
      pyOrS urgency "Unknown", Json.arr [], by simp [aiSummarizeObj]⟩
  | true =>
    cases resp with
    | error e =>
      exact ⟨"(OpenAI error: " ++ e ++ ")", pyOrS urgency "Unknown", Json.arr [],
        by simp [aiSummarizeObj]⟩
    | ok raw =>
      cases hx : structuredParse (pyStrip raw) urgency with
      | none =>
        exact ⟨pySlice 600 (pyStrip raw), pyOrS urgency "Unknown", Json.arr [],
          by simp [aiSummarizeObj, hx, fallback600]⟩
      | some out => exact ⟨out.1, out.2.1, out.2.2, by simp [aiSummarizeObj, hx]⟩

/-- Claim C4 (amended): the summarizer is total — every branch yields a
record with the summary, urgency and keywords fields — and when the
whitespace-stripped backend reply does not parse as the expected structure,
the summary is that stripped reply truncated to 600 characters, the
urgency is the reported urgency when non-empty and `"Unknown"` otherwise
(not the reported urgency verbatim), and the keywords are empty. -/
theorem C4_unparsed (symptoms urgency raw : String)
    (h : structuredParse (pyStrip raw) urgency = none) :
    (∀ (useAi : Bool) (resp : Except String String), ∃ s u kw,
        aiSummarizeObj useAi resp symptoms urgency
          = Json.obj [("summary", Json.str s), ("urgency", Json.str u), ("keywords", kw)])
    ∧ aiSummarizeObj true (.ok raw) symptoms urgency
        = Json.obj [("summary", Json.str (pySlice 600 (pyStrip raw))),
            ("urgency", Json.str (if urgency = "" then "Unknown" else urgency)),
            ("keywords", Json.arr [])] := by
  constructor
  · intro useAi resp
    exact aiSummarizeObj_shape useAi resp symptoms urgency
  · simp [aiSummarizeObj, h, fallback600, pyOrS]

theorem C4_witness :
    (structuredParse (pyStrip "  nope  ") "High" = none)
    ∧ ((∀ (useAi : Bool) (resp : Except String String), ∃ s u kw,
        aiSummarizeObj useAi resp "fever" "High"
          = Json.obj [("summary", Json.str s), ("urgency", Json.str u), ("keywords", kw)])
      ∧ aiSummarizeObj true (.ok "  nope  ") "fever" "High"
        = Json.obj [("summary", Json.str (pySlice 600 (pyStrip "  nope  "))),
            ("urgency", Json.str (if "High" = "" then "Unknown" else "High")),
            ("keywords", Json.arr [])]) :=
  ⟨rfl, C4_unparsed "fever" "High" "  nope  " rfl⟩

/-- Claim C4 counterexample: at the unparseable backend reply
`"  notjson  "` with empty reported urgency, the code strips the reply
before truncating (summary `"notjson"`, not the raw text) and replaces the
empty urgency with `"Unknown"` instead of keeping it. -/
theorem C4_counterexample :
    aiSummarizeObj true (.ok "  notjson  ") "sym" ""
      = Json.obj [("summary", Json.str "notjson"), ("urgency", Json.str "Unknown"),
          ("keywords", Json.arr [])]
    ∧ "notjson" ≠ pySlice 600 "  notjson  "
    ∧ "Unknown" ≠ "" :=
  ⟨rfl, by decide, by decide⟩

/-- Claim C10: in every branch the string `ai_summarize` returns parses
back (by `json.loads`) as exactly the JSON object it dumped, which always
carries the three keys summary, urgency and keywords; the keywords are the
empty sequence except when a successful structured parse of the backend
reply supplies them; consequently the archive-append step, which re-parses
this string, never takes its own parse-failure fallback. -/
theorem C10_roundtrip (useAi : Bool) (resp : Except String String)
    (symptoms urgency : String) :
    loads (ai_summarize useAi resp symptoms urgency)
        = some (aiSummarizeObj useAi resp symptoms urgency)
    ∧ (∃ s u kw, aiSummarizeObj useAi resp symptoms urgency
        = Json.obj [("summary", Json.str s), ("urgency", Json.str u), ("keywords", kw)])
    ∧ (archiveFields (ai_summarize useAi resp symptoms urgency) urgency).2.2 = false
    ∧ ((∃ s u, aiSummarizeObj useAi resp symptoms urgency
          = Json.obj [("summary", Json.str s), ("urgency", Json.str u),
              ("keywords", Json.arr [])])
        ∨ (useAi = true ∧ ∃ raw out, resp = Except.ok raw
            ∧ structuredParse (pyStrip raw) urgency = some out
            ∧ aiSummarizeObj useAi resp symptoms urgency
                = Json.obj [("summary", Json.str out.1), ("urgency", Json.str out.2.1),
                    ("keywords", out.2.2)])) := by
  have hload : loads (ai_summarize useAi resp symptoms urgency)
      = some (aiSummarizeObj useAi resp symptoms urgency) := loads_dumps _
  obtain ⟨s, u, kw, hshape⟩ := aiSummarizeObj_shape useAi resp symptoms urgency
  refine ⟨hload, ⟨s, u, kw, hshape⟩, ?_, ?_⟩
  · unfold archiveFields
    rw [hload, hshape]
  · cases useAi with
    | false =>
      left
      exact ⟨"Reported symptoms: " ++ pyReplaceNl (pySlice 200 symptoms) ++ "...",
        pyOrS urgency "Unknown", by simp [aiSummarizeObj]⟩
    | true =>
      cases resp with
      | error e =>
        left
        exact ⟨"(OpenAI error: " ++ e ++ ")", pyOrS urgency "Unknown",
          by simp [aiSummarizeObj]⟩
      | ok raw =>
        cases hx : structuredParse (pyStrip raw) urgency with
        | none =>
          left
          exact ⟨pySlice 600 (pyStrip raw), pyOrS urgency "Unknown",
            by simp [aiSummarizeObj, hx, fallback600]⟩
        | some out =>
          right
          exact ⟨rfl, raw, out, rfl, hx, by simp [aiSummarizeObj, hx]⟩

lemma canonical_variants_mem_aliases : ∀ c ∈ required_cols, (c, variantsOf c) ∈ aliases := by
  decide

lemma aliases_snd_variantsOf : ∀ p ∈ aliases, p.2 = variantsOf p.1 := by
  decide

lemma aliases_fst_required : ∀ p ∈ aliases, p.1 ∈ required_cols := by
  decide

lemma aliases_fst_ne_processed : ∀ p ∈ aliases, p.1 ≠ "Processed" := by
  decide

lemma processed_key_not_variant : ∀ p ∈ aliases, ∀ v ∈ p.2,
    lowerKey "Processed" ≠ lowerKey v := by
  decide

/-- Claim C2: for every header set that offers, for each canonical field,
the exact canonical name or at least one known synonym in any case or
whitespace variant, normalization resolves all five canonical fields; and
when several synonyms for one canonical field are present, the synonym
earliest in the fixed list determines which actual column is chosen. -/
theorem C2_normalization (cols : List String)
    (h : ∀ p ∈ aliases, resolvable cols p.1 p.2) :
    (∀ c ∈ required_cols, c ∈ applyRenames cols)
    ∧ (∀ p ∈ aliases, p.1 ∉ cols →
        ∀ v0, p.2.find? (fun v => (lowerMapGet cols (lowerKey v)).isSome) = some v0 →
          ∃ src, lowerMapGet cols (lowerKey v0) = some src
            ∧ renameApply cols src = p.1) := by
  constructor
  · intro c hc
    have hmem := canonical_variants_mem_aliases c hc
    have hres := h (c, variantsOf c) hmem
    exact (mem_applyRenames_iff hc).2 hres
  · intro p hp hnot v0 hfind0
    have hfs : findSrc cols p.2 = lowerMapGet cols (lowerKey v0) := findSrc_first hfind0
    have hpred := List.find?_some hfind0
    obtain ⟨src, hsrc⟩ := Option.isSome_iff_exists.1 (by simpa using hpred)
    refine ⟨src, hsrc, ?_⟩
    have hv : p.2 = variantsOf p.1 := aliases_snd_variantsOf p hp
    have hreq : p.1 ∈ required_cols := aliases_fst_required p hp
    apply renameApply_src hreq _ hnot
    rw [← hv, hfs, hsrc]

theorem C2_witness :
    (∀ p ∈ aliases,
        resolvable ["date", "Your Name", "E-MAIL", "problem", "How Urgent"] p.1 p.2)
    ∧ ((∀ c ∈ required_cols,
          c ∈ applyRenames ["date", "Your Name", "E-MAIL", "problem", "How Urgent"])
      ∧ (∀ p ∈ aliases, p.1 ∉ ["date", "Your Name", "E-MAIL", "problem", "How Urgent"] →
          ∀ v0, p.2.find? (fun v =>
              (lowerMapGet ["date", "Your Name", "E-MAIL", "problem", "How Urgent"]
                (lowerKey v)).isSome) = some v0 →
            ∃ src, lowerMapGet ["date", "Your Name", "E-MAIL", "problem", "How Urgent"]
                (lowerKey v0) = some src
              ∧ renameApply ["date", "Your Name", "E-MAIL", "problem", "How Urgent"] src
                  = p.1)) :=
  ⟨by decide, C2_normalization _ (by decide)⟩

lemma resolvable_ensure {headers : List String} {p : String × List String}
    (hp : p ∈ aliases) :
    resolvable (colsAfterEnsure headers) p.1 p.2 ↔ resolvable headers p.1 p.2 := by
  unfold colsAfterEnsure
  by_cases hP : "Processed" ∈ headers
  · rw [if_pos hP]
  · rw [if_neg hP]
    unfold resolvable
    constructor
    · rintro (hmem | ⟨c, hc, v, hv, hk⟩)
      · rcases List.mem_append.1 hmem with h1 | h1
        · exact Or.inl h1
        · exfalso
          simp at h1
          exact aliases_fst_ne_processed p hp h1
      · rcases List.mem_append.1 hc with h1 | h1
        · exact Or.inr ⟨c, h1, v, hv, hk⟩
        · exfalso
          simp at h1
          subst h1
          exact processed_key_not_variant p hp v hv hk
    · rintro (hmem | ⟨c, hc, v, hv, hk⟩)
      · exact Or.inl (List.mem_append_left _ hmem)
      · exact Or.inr ⟨c, List.mem_append_left _ hc, v, hv, hk⟩

lemma missingCols_iff {headers : List String} {c : String} :
    c ∈ missingCols (applyRenames (colsAfterEnsure headers))
      ↔ c ∈ required_cols ∧ ¬ resolvable headers c (variantsOf c) := by
  unfold missingCols
  rw [List.mem_filter]
  constructor
  · rintro ⟨hreq, hdec⟩
    refine ⟨hreq, ?_⟩
    have hnot : ¬ c ∈ applyRenames (colsAfterEnsure headers) := by simpa using hdec
    intro hres
    exact hnot ((mem_applyRenames_iff hreq).2
      ((resolvable_ensure (canonical_variants_mem_aliases c hreq)).2 hres))
  · rintro ⟨hreq, hres⟩
    refine ⟨hreq, ?_⟩
    simp only [decide_eq_true_eq]
    intro hmem
    exact hres ((resolvable_ensure (canonical_variants_mem_aliases c hreq)).1
      ((mem_applyRenames_iff hreq).1 hmem))

/-- Claim C3: for every header set (of a sheet with data rows, so that
normalization runs) in which some canonical field is unresolvable by exact
match or alias matching, the run stops with exit status 1 before touching
any row; its two output lines list all available (post-rename) columns and
name the missing canonical fields; and the missing list holds exactly the
unresolvable canonical fields. -/
theorem C3_missing (cfg : Config) (eff : Effects) (w : World)
    (hrows : w.dataRows ≠ []) (hhead : w.headers ≠ [])
    (hmiss : ∃ p ∈ aliases, ¬ resolvable w.headers p.1 p.2) :
    (runScript cfg eff w).exitCode = 1
    ∧ (runScript cfg eff w).logs
        = [colsPresentMsg (applyRenames (colsAfterEnsure w.headers)),
           missingMsg (missingCols (applyRenames (colsAfterEnsure w.headers)))]
    ∧ (∀ c, c ∈ missingCols (applyRenames (colsAfterEnsure w.headers))
        ↔ c ∈ required_cols ∧ ¬ resolvable w.headers c (variantsOf c))
    ∧ (∀ e ∈ (runScript cfg eff w).events,
        e = Event.createArchive archiveHeader
          ∨ e = Event.setHeaderCell (w.headers.length + 1) "Processed") := by
  have hne : missingCols (applyRenames (colsAfterEnsure w.headers)) ≠ [] := by
    obtain ⟨p, hp, hres⟩ := hmiss
    intro hnil
    have hc : p.1 ∈ missingCols (applyRenames (colsAfterEnsure w.headers)) := by
      rw [missingCols_iff]
      refine ⟨aliases_fst_required p hp, ?_⟩
      rw [← aliases_snd_variantsOf p hp]
      exact hres
    rw [hnil] at hc
    simp at hc
  have hrun : runScript cfg eff w
      = { exitCode := 1,
          logs := [colsPresentMsg (applyRenames (colsAfterEnsure w.headers)),
                   missingMsg (missingCols (applyRenames (colsAfterEnsure w.headers)))],
          events := (if w.archivePresent then [] else [Event.createArchive archiveHeader])
            ++ (if "Processed" ∈ w.headers then []
                else [Event.setHeaderCell (w.headers.length + 1) "Processed"]) } := by
    unfold runScript
    rw [if_neg (by simp [hrows, hhead]), if_neg hne]
  refine ⟨by rw [hrun], by rw [hrun], fun c => missingCols_iff, ?_⟩
  rw [hrun]
  intro e he
  simp only [List.mem_append] at he
  rcases he with he | he
  · left
    rcases hP : w.archivePresent <;> rw [hP] at he <;> simp at he
    · exact he
  · right
    by_cases hP : "Processed" ∈ w.headers
    · rw [if_pos hP] at he
      simp at he
    · rw [if_neg hP] at he
      simpa using he

lemma selectedOf_sublist_enum (w : World) : (selectedOf w).Sublist w.dataRows.enum :=
  List.filter_sublist _

lemma mem_selected_get {w : World} {p : Nat × List String} (hp : p ∈ selectedOf w) :
    w.dataRows[p.1]? = some p.2 := by
  have hmem : p ∈ w.dataRows.enum := (List.mem_filter.1 hp).1
  obtain ⟨i, x⟩ := p
  exact List.mk_mem_enum_iff_getElem?.1 hmem

lemma dataRows_ne_nil_of_selected {w : World} {p : Nat × List String}
    (hp : p ∈ selectedOf w) : w.dataRows ≠ [] := by
  intro h
  have := mem_selected_get hp
  rw [h] at this
  simp at this

lemma runScript_loop (cfg : Config) (eff : Effects) (w : World)
    (h1 : w.dataRows ≠ []) (h2 : w.headers ≠ [])
    (h3 : missingCols (applyRenames (colsAfterEnsure w.headers)) = [])
    (h4 : selectedOf w ≠ []) :
    runScript cfg eff w
      = { exitCode := 0,
          logs := (((selectedOf w).map (fun p => processRow cfg eff (pcolOf w) p.1
              (applyRenames (colsAfterEnsure w.headers)) p.2)).map Prod.fst).flatten
            ++ [finalMsg (selectedOf w).length],
          events := (if w.archivePresent then [] else [Event.createArchive archiveHeader])
            ++ (if "Processed" ∈ w.headers then []
                else [Event.setHeaderCell (w.headers.length + 1) "Processed"])
            ++ (((selectedOf w).map (fun p => processRow cfg eff (pcolOf w) p.1
                (applyRenames (colsAfterEnsure w.headers)) p.2)).map Prod.snd).flatten } := by
  unfold runScript
  rw [if_neg (by simp [h1, h2]), if_pos h3, if_neg h4]

lemma processRow_mark_mem (cfg : Config) (eff : Effects) (pcol i : Nat)
    (cols : List String) (r : List String) :
    Event.markCell (i + 2) pcol "Yes" (eff.markOk i)
      ∈ (processRow cfg eff pcol i cols r).2 := by
  simp [processRow]

lemma processRow_append_mem (cfg : Config) (eff : Effects) (pcol i : Nat)
    (cols : List String) (r : List String) :
    ∃ vals, Event.appendRow vals (eff.appendOk i) ∈ (processRow cfg eff pcol i cols r).2 :=
  ⟨archRowOf cfg eff i cols r, by simp [processRow]⟩

lemma processRow_markFail_mem (cfg : Config) (eff : Effects) (pcol i : Nat)
    (cols : List String) (r : List String) (hm : eff.markOk i = false) :
    markFailMsg (i + 2) (eff.markErr i) ∈ (processRow cfg eff pcol i cols r).1 := by
  simp [processRow, hm]

lemma processRow_appendFail_mem (cfg : Config) (eff : Effects) (pcol i : Nat)
    (cols : List String) (r : List String) (ha : eff.appendOk i = false) :
    appendFailMsg cfg.processedSheet (eff.appendErr i) ∈ (processRow cfg eff pcol i cols r).1 := by
  simp [processRow, ha]

lemma mem_run_events {cfg : Config} {eff : Effects} {w : World}
    {p : Nat × List String} (hp : p ∈ selectedOf w)
    (h2 : w.headers ≠ [])
    (h3 : missingCols (applyRenames (colsAfterEnsure w.headers)) = [])
    {e : Event}
    (he : e ∈ (processRow cfg eff (pcolOf w) p.1
        (applyRenames (colsAfterEnsure w.headers)) p.2).2) :
    e ∈ (runScript cfg eff w).events := by
  rw [runScript_loop cfg eff w (dataRows_ne_nil_of_selected hp) h2 h3
    (List.ne_nil_of_mem hp)]
  apply List.mem_append_right
  refine List.mem_flatten_of_mem ?_ he
  rw [List.map_map]
  exact List.mem_map.2 ⟨p, hp, rfl⟩

lemma mem_run_logs {cfg : Config} {eff : Effects} {w : World}
    {p : Nat × List String} (hp : p ∈ selectedOf w)
    (h2 : w.headers ≠ [])
    (h3 : missingCols (applyRenames (colsAfterEnsure w.headers)) = [])
    {s : String}
    (hs : s ∈ (processRow cfg eff (pcolOf w) p.1
        (applyRenames (colsAfterEnsure w.headers)) p.2).1) :
    s ∈ (runScript cfg eff w).logs := by
  rw [runScript_loop cfg eff w (dataRows_ne_nil_of_selected hp) h2 h3
    (List.ne_nil_of_mem hp)]
  apply List.mem_append_left
  refine List.mem_flatten_of_mem ?_ hs
  rw [List.map_map]
  exact List.mem_map.2 ⟨p, hp, rfl⟩

/-- Claim C6 (amended): no row failure aborts the batch — every selected
row's processed-flag update and archive append are attempted, and the final
line reports a count equal to the number of rows the Ledger Filter selected
(each such row having reached the notification stage); a processed-flag
failure is reported per row with the row's sheet position in the message,
while an archive-append failure is reported per row naming the archive
sheet but not the row's position. -/
theorem C6_per_row (cfg : Config) (eff : Effects) (w : World)
    (h2 : w.headers ≠ [])
    (h3 : missingCols (applyRenames (colsAfterEnsure w.headers)) = [])
    (h4 : selectedOf w ≠ []) :
    ((runScript cfg eff w).logs.getLast? = some (finalMsg (selectedOf w).length))
    ∧ (∀ p ∈ selectedOf w, eff.markOk p.1 = false →
        markFailMsg (p.1 + 2) (eff.markErr p.1) ∈ (runScript cfg eff w).logs)
    ∧ (∀ p ∈ selectedOf w, eff.appendOk p.1 = false →
        appendFailMsg cfg.processedSheet (eff.appendErr p.1) ∈ (runScript cfg eff w).logs)
    ∧ (∀ p ∈ selectedOf w,
        Event.markCell (p.1 + 2) (pcolOf w) "Yes" (eff.markOk p.1)
            ∈ (runScript cfg eff w).events
        ∧ ∃ vals, Event.appendRow vals (eff.appendOk p.1) ∈ (runScript cfg eff w).events) := by
  obtain ⟨p0, hp0⟩ := List.exists_mem_of_ne_nil _ h4
  have h1 : w.dataRows ≠ [] := dataRows_ne_nil_of_selected hp0
  refine ⟨?_, ?_, ?_, ?_⟩
  · rw [runScript_loop cfg eff w h1 h2 h3 h4]
    exact List.getLast?_concat _
  · intro p hp hm
    exact mem_run_logs hp h2 h3 (processRow_markFail_mem _ _ _ _ _ _ hm)
  · intro p hp ha
    exact mem_run_logs hp h2 h3 (processRow_appendFail_mem _ _ _ _ _ _ ha)
  · intro p hp
    refine ⟨mem_run_events hp h2 h3 (processRow_mark_mem _ _ _ _ _ _), ?_⟩
    obtain ⟨vals, hv⟩ := processRow_append_mem cfg eff (pcolOf w) p.1
      (applyRenames (colsAfterEnsure w.headers)) p.2
    exact ⟨vals, mem_run_events hp h2 h3 hv⟩

/-! Concrete fixtures for the witnesses. -/

def cfgDefault : Config := { useOpenai := false, processedSheet := "Processed" }

def effAllOk : Effects :=
  { emailOk := false, emailSendOk := fun _ => true, emailSendErr := fun _ => "",
    slackOk := false, slackSendOk := fun _ => true, slackSendErr := fun _ => "",
    markOk := fun _ => true, markErr := fun _ => "",
    appendOk := fun _ => true, appendErr := fun _ => "",
    backend := fun _ => Except.ok "" }

def effAppendFail : Effects :=
  { effAllOk with appendOk := fun _ => false, appendErr := fun _ => "boom" }

def effChannels : Effects := { effAllOk with emailOk := true, slackOk := true }

def wOneRow : World :=
  { archivePresent := true,
    headers := ["Timestamp", "Name", "Email", "Symptoms", "Urgency", "Processed"],
    dataRows := [["T", "N", "E", "S", "U", ""]] }

def wC3 : World :=
  { archivePresent := true,
    headers := ["Name", "Email", "Symptoms", "Urgency"],
    dataRows := [["a", "b", "c", "d"]] }

def wEmptySheet : World :=
  { archivePresent := true,
    headers := ["Timestamp", "Name", "Email", "Symptoms", "Urgency"],
    dataRows := [] }

def wThreeRows : World :=
  { archivePresent := true,
    headers := ["Timestamp", "Name", "Email", "Symptoms", "Urgency", "Processed"],
    dataRows := [["T1", "A", "E1", "S1", "U1", "Yes"],
                 ["T2", "B", "E2", "S2", "U2", ""],
                 ["T3", "C", "E3", "S3", "U3", ""]] }

theorem C3_witness :
    (wC3.dataRows ≠ [] ∧ wC3.headers ≠ []
      ∧ ∃ p ∈ aliases, ¬ resolvable wC3.headers p.1 p.2)
    ∧ (runScript cfgDefault effAllOk wC3).exitCode = 1 :=
  ⟨⟨by decide, by decide, by decide⟩,
    (C3_missing cfgDefault effAllOk wC3 (by decide) (by decide) (by decide)).1⟩

theorem C6_witness :
    (wOneRow.headers ≠ []
      ∧ missingCols (applyRenames (colsAfterEnsure wOneRow.headers)) = []
      ∧ selectedOf wOneRow ≠ [])
    ∧ (runScript cfgDefault effAllOk wOneRow).logs.getLast?
        = some (finalMsg (selectedOf wOneRow).length) :=
  ⟨⟨by decide, by decide, by decide⟩,
    (C6_per_row cfgDefault effAllOk wOneRow (by decide) (by decide) (by decide)).1⟩

/-- Claim C6 counterexample: with only the archive append failing, the run
emits exactly one failure report for it, which names the archive sheet but
contains no digit at all, hence not the failing row's position (sheet row 2)
— so the claim that an archive-append failure is reported with the row's
position fails on this input. -/
theorem C6_counterexample :
    (runScript cfgDefault effAppendFail wOneRow).logs
      = ["ℹ️ Skipping email for N (SMTP unavailable)",
         "⚠️ Could not append to \x27Processed\x27: boom",
         "✅ All new entries processed. Rows updated: 1"]
    ∧ (("⚠️ Could not append to \x27Processed\x27: boom").data.any Char.isDigit) = false := by
  exact ⟨rfl, by decide⟩

/-- Claim C7: for every combination of channel availability and outcome,
the row still reaches the mark-processed and archive-append steps (both
events occur whatever the email and chat effects do), and each configured
channel is attempted regardless of the other channel's state or outcome. -/
theorem C7_channels (cfg : Config) (eff : Effects) (pcol i : Nat)
    (cols r : List String) :
    (Event.markCell (i + 2) pcol "Yes" (eff.markOk i) ∈ (processRow cfg eff pcol i cols r).2)
    ∧ (∃ vals, Event.appendRow vals (eff.appendOk i) ∈ (processRow cfg eff pcol i cols r).2)
    ∧ (eff.slackOk = true →
        Event.slackAttempt i (eff.slackSendOk i) ∈ (processRow cfg eff pcol i cols r).2)
    ∧ (eff.emailOk = true →
        Event.emailAttempt i (eff.emailSendOk i) ∈ (processRow cfg eff pcol i cols r).2) := by
  refine ⟨processRow_mark_mem cfg eff pcol i cols r,
    processRow_append_mem cfg eff pcol i cols r, ?_, ?_⟩
  · intro hs
    simp [processRow, hs]
  · intro he
    simp [processRow, he]

theorem C7_witness :
    (effChannels.slackOk = true)
    ∧ (effChannels.emailOk = true)
    ∧ Event.slackAttempt 0 (effChannels.slackSendOk 0)
        ∈ (processRow cfgDefault effChannels 6 0 ["Processed"] ["x"]).2
    ∧ Event.emailAttempt 0 (effChannels.emailSendOk 0)
        ∈ (processRow cfgDefault effChannels 6 0 ["Processed"] ["x"]).2 :=
  ⟨rfl, rfl,
    (C7_channels cfgDefault effChannels 6 0 ["Processed"] ["x"]).2.2.1 rfl,
    (C7_channels cfgDefault effChannels 6 0 ["Processed"] ["x"]).2.2.2 rfl⟩

/-- Claim C8: with zero data rows the run exits with status zero reporting
that there is nothing to process, performs no source-sheet mutation at all
(in particular none beyond the Processed-column ensure, which this early
exit never even reaches) and appends nothing to the archive; the only
possible event is creating the archive worksheet with its fixed header when
it was absent. -/
theorem C8_empty (cfg : Config) (eff : Effects) (w : World)
    (h : w.dataRows = []) :
    runScript cfg eff w
      = { exitCode := 0, logs := [emptySheetMsg],
          events := if w.archivePresent then []
            else [Event.createArchive archiveHeader] } := by
  unfold runScript
  rw [if_pos (Or.inl h)]

theorem C8_witness :
    (wEmptySheet.dataRows = [])
    ∧ runScript cfgDefault effAllOk wEmptySheet
        = { exitCode := 0, logs := [emptySheetMsg],
            events := if wEmptySheet.archivePresent then []
              else [Event.createArchive archiveHeader] } :=
  ⟨rfl, C8_empty cfgDefault effAllOk wEmptySheet rfl⟩

/-- Claim C9: each selected row keeps its original zero-based position
among the data rows (pandas filtering preserves the index), and its
processed mark targets exactly sheet row `position + 2` in the `Processed`
column of the source sheet — the row's original physical row, even when
earlier rows were filtered out. -/
theorem C9_mark_position (cfg : Config) (eff : Effects) (w : World)
    (h2 : w.headers ≠ [])
    (h3 : missingCols (applyRenames (colsAfterEnsure w.headers)) = []) :
    ∀ p ∈ selectedOf w,
      w.dataRows[p.1]? = some p.2
      ∧ Event.markCell (p.1 + 2) (pcolOf w) "Yes" (eff.markOk p.1)
          ∈ (runScript cfg eff w).events
      ∧ (colsAfterEnsure w.headers).get? (pcolOf w - 1) = some "Processed" := by
  intro p hp
  refine ⟨mem_selected_get hp,
    mem_run_events hp h2 h3
      (processRow_mark_mem cfg eff (pcolOf w) p.1
        (applyRenames (colsAfterEnsure w.headers)) p.2), ?_⟩
  have hmem : "Processed" ∈ colsAfterEnsure w.headers := by
    unfold colsAfterEnsure
    by_cases h : "Processed" ∈ w.headers
    · simp only [if_pos h]
      exact h
    · simp [h]
  have hidx : pcolOf w - 1 = (colsAfterEnsure w.headers).indexOf "Processed" := by
    simp [pcolOf]
  rw [hidx]
  exact List.indexOf_get? hmem

theorem C9_witness :
    (wThreeRows.headers ≠ []
      ∧ missingCols (applyRenames (colsAfterEnsure wThreeRows.headers)) = []
      ∧ (1, ["T2", "B", "E2", "S2", "U2", ""]) ∈ selectedOf wThreeRows)
    ∧ (wThreeRows.dataRows[(1 : Nat)]? = some ["T2", "B", "E2", "S2", "U2", ""]
      ∧ Event.markCell (1 + 2) (pcolOf wThreeRows) "Yes" (effAllOk.markOk 1)
          ∈ (runScript cfgDefault effAllOk wThreeRows).events
      ∧ (colsAfterEnsure wThreeRows.headers).get? (pcolOf wThreeRows - 1)
          = some "Processed") :=
  ⟨⟨by decide, by decide, by decide⟩,
    C9_mark_position cfgDefault effAllOk wThreeRows (by decide) (by decide)
      (1, ["T2", "B", "E2", "S2", "U2", ""]) (by decide)⟩
